import Mathlib

set_option linter.unusedSectionVars false

/-!
Shallow embedding of the `trashmap` repository: a separately chained hash
table implemented twice, as `Chained` in `src/chained.rs` and as `HashMap`
in `src/separate_chaining.rs`.

Modelling conventions:
* Keys and values are arbitrary types; the Rust `Hash` bound becomes an
  explicit parameter `hash : K → Nat` standing for `DefaultHasher`-based
  `hasher.finish()` (equal keys hash equal, which a function gives for free).
* Rust panics are modelled as `none`: the `%` of `bucket_index` panics when
  `n_buckets` is zero, and `Vec` indexing panics out of bounds, so every
  operation that can reach such a panic returns an `Option`.
* The `f64` load-factor test `self.len as f64 >= self.buckets.len() as f64
  * 0.75` is exact for all sizes below `2 ^ 51` (both casts and the product
  by `0.75 = 3 / 4` are then exactly representable), so it is embedded as
  the equivalent integer inequality `3 * buckets.len ≤ 4 * len`.
* `usize` arithmetic is embedded as `Nat`; none of the verified statements
  go anywhere near `2 ^ 64`.
-/

namespace Trashmap

/-- One bucket: `struct Bucket { data: Vec<(K, V)> }`, identical in
`chained.rs` and `separate_chaining.rs`. -/
structure Bucket (K V : Type) where
  data : List (K × V)
deriving DecidableEq

/-- `Iterator::position` on a list: index of the first element satisfying
`p`, or `none`. -/
def findPos {α : Type} (p : α → Bool) : List α → Option Nat
  | [] => none
  | a :: l => if p a then some 0 else (findPos p l).map (· + 1)

/-- `Vec::swap_remove(j)`: overwrite position `j` with the last element,
pop, and return the removed element; `none` models the out-of-bounds
panic. -/
def swapRemove {α : Type} (l : List α) (j : Nat) : Option (List α × α) :=
  match l[j]? with
  | none => none
  | some x =>
    match l.getLast? with
    | none => none
    | some last => some ((l.set j last).dropLast, x)

/-- The scan of `Bucket::iter_mut().find(|(k, _)| k == &key)` followed by
`mem::replace(v, value)`: replace the value of the first entry whose key
equals `key` and return the updated data together with the displaced
value; `none` if no entry matches. -/
def findReplace {K V : Type} [DecidableEq K] (key : K) (value : V) :
    List (K × V) → Option (List (K × V) × V)
  | [] => none
  | (k, v) :: rest =>
    if k = key then some ((k, value) :: rest, v)
    else (findReplace key value rest).map fun p => ((k, v) :: p.1, p.2)

/-- `new_buckets[i].push(key, value)` on a bucket array. -/
def pushAt {K V : Type} (bs : List (Bucket K V)) (i : Nat) (kv : K × V) :
    List (Bucket K V) :=
  bs.set i ⟨(bs.getD i ⟨[]⟩).data ++ [kv]⟩

/-- The table of `src/chained.rs`: `struct Chained { buckets: Vec<Bucket>,
len: usize }`. -/
structure Chained (K V : Type) where
  buckets : List (Bucket K V)
  len : Nat
deriving DecidableEq

namespace Chained

variable {K V : Type} [DecidableEq K]

/-- `Chained::new`: zero buckets, zero length. -/
def new : Chained K V := { buckets := [], len := 0 }

/-- `Chained::is_empty`: `self.len == 0`. -/
def isEmpty (t : Chained K V) : Bool := t.len = 0

/-- `Chained::bucket_index`: `hash(key) % n_buckets`; the zero-divisor
panic of `%` is `none`. -/
def bucketIndex (hash : K → Nat) (key : K) (nBuckets : Nat) : Option Nat :=
  if nBuckets = 0 then none else some (hash key % nBuckets)

/-- The body of the `for` loops of `Chained::resize`: drain every bucket
and push each entry into `new_buckets[bucket_index(key, target_size)]`. -/
def scatter (hash : K → Nat) (n : Nat) (l : List (K × V))
    (bs : List (Bucket K V)) : List (Bucket K V) :=
  l.foldl (fun acc kv => pushAt acc (hash kv.1 % n) kv) bs

/-- `Chained::resize`: pick `target_size` (1 when `len == 0`, else
`len * 2`), allocate that many fresh buckets, rehash every entry into
them, and swap the arrays.  `target_size` is always positive, so the
`bucket_index` inside the loop cannot hit the zero divisor. -/
def resize (hash : K → Nat) (t : Chained K V) : Chained K V :=
  let target := match t.len with
    | 0 => 1
    | n => n * 2
  { buckets :=
      t.buckets.foldl (fun acc b => scatter hash target b.data acc)
        (List.replicate target (⟨[]⟩ : Bucket K V)),
    len := t.len }

/-- `Chained::insert` after its conditional resize: index the bucket,
replace in place when the key is found (returning the old value), else
push and bump `len`. -/
def insertAfterResize (hash : K → Nat) (t1 : Chained K V) (key : K)
    (value : V) : Option (Chained K V × Option V) :=
  match bucketIndex hash key t1.buckets.length with
  | none => none
  | some i =>
    match findReplace key value (t1.buckets.getD i ⟨[]⟩).data with
    | some (newData, oldValue) =>
      some ({ buckets := t1.buckets.set i ⟨newData⟩, len := t1.len },
            some oldValue)
    | none =>
      some ({ buckets := pushAt t1.buckets i (key, value),
              len := t1.len + 1 }, none)

/-- `Chained::insert`: resize first when `is_empty() || len as f64 >=
buckets.len() as f64 * 0.75` (embedded exactly as `len = 0 ∨ 3 * capacity
≤ 4 * len`), then place the entry. -/
def insert (hash : K → Nat) (t : Chained K V) (key : K) (value : V) :
    Option (Chained K V × Option V) :=
  insertAfterResize hash
    (if t.len = 0 ∨ 3 * t.buckets.length ≤ 4 * t.len then resize hash t
     else t) key value

/-- `Chained::remove`: index the bucket (panicking on a zero-bucket
table), `position` the key, `swap_remove` it and decrement `len`; absent
keys leave the table untouched. -/
def remove (hash : K → Nat) (t : Chained K V) (key : K) :
    Option (Chained K V × Option V) :=
  match bucketIndex hash key t.buckets.length with
  | none => none
  | some i =>
    match findPos (fun p => decide (p.1 = key))
        (t.buckets.getD i ⟨[]⟩).data with
    | none => some (t, none)
    | some j =>
      match swapRemove (t.buckets.getD i ⟨[]⟩).data j with
      | none => none
      | some (newData, kv) =>
        some ({ buckets := t.buckets.set i ⟨newData⟩, len := t.len - 1 },
              some kv.2)

/-- `Chained::get`: index the bucket (panicking on a zero-bucket table)
and scan it for the key. -/
def get (hash : K → Nat) (t : Chained K V) (key : K) : Option (Option V) :=
  match bucketIndex hash key t.buckets.length with
  | none => none
  | some i =>
    some ((((t.buckets.getD i ⟨[]⟩).data.find?
      fun p => decide (p.1 = key))).map Prod.snd)

/-- `Chained::contains_key`: `self.get(key).is_some()`. -/
def containsKey (hash : K → Nat) (t : Chained K V) (key : K) :
    Option Bool :=
  (get hash t key).map Option.isSome

/-- All key-value pairs stored in the table, bucket by bucket. -/
def entries (t : Chained K V) : List (K × V) :=
  t.buckets.flatMap Bucket.data

/-- Value of the first entry for `k` in an association list. -/
def lookupEntries (l : List (K × V)) (k : K) : Option V :=
  (l.find? fun p => decide (p.1 = k)).map Prod.snd

/-- The structural invariants of the table (spec §3): `length` equals the
sum of all bucket entry counts, every stored key occurs in exactly one
entry across all buckets, and each entry lives in the bucket
`bucket_index(key, capacity)`. -/
def Inv (hash : K → Nat) (t : Chained K V) : Prop :=
  t.len = (entries t).length ∧
  ((entries t).map Prod.fst).Nodup ∧
  ∀ i < t.buckets.length, ∀ kv ∈ (t.buckets.getD i ⟨[]⟩).data,
    hash kv.1 % t.buckets.length = i

instance (hash : K → Nat) [DecidableEq V] (t : Chained K V) :
    Decidable (Inv hash t) := by
  unfold Inv; infer_instance

end Chained

/-- The table of `src/separate_chaining.rs`: `struct HashMap { buckets:
Vec<Bucket>, len: usize }`.  Its operations are the same algorithms as
`Chained`, except that `remove`, `get` and `contains_key` take a borrowed
key `&Q` with `K: Borrow<Q>`; claim C9 concerns the instance where the
borrowed key type is the owned key type, so they are embedded at `K`
(`Borrow<K> for K` is the identity, and hashes agree). -/
structure HashMap (K V : Type) where
  buckets : List (Bucket K V)
  len : Nat
deriving DecidableEq

namespace HashMap

variable {K V : Type} [DecidableEq K]

/-- `HashMap::new`. -/
def new : HashMap K V := { buckets := [], len := 0 }

/-- `HashMap::is_empty`. -/
def isEmpty (t : HashMap K V) : Bool := t.len = 0

/-- `HashMap::bucket_index`. -/
def bucketIndex (hash : K → Nat) (key : K) (nBuckets : Nat) : Option Nat :=
  if nBuckets = 0 then none else some (hash key % nBuckets)

/-- `HashMap::resize` (same algorithm as `Chained::resize`). -/
def resize (hash : K → Nat) (t : HashMap K V) : HashMap K V :=
  let target := match t.len with
    | 0 => 1
    | n => n * 2
  { buckets :=
      t.buckets.foldl (fun acc b => Chained.scatter hash target b.data acc)
        (List.replicate target (⟨[]⟩ : Bucket K V)),
    len := t.len }

/-- `HashMap::insert` after its conditional resize. -/
def insertAfterResize (hash : K → Nat) (t1 : HashMap K V) (key : K)
    (value : V) : Option (HashMap K V × Option V) :=
  match bucketIndex hash key t1.buckets.length with
  | none => none
  | some i =>
    match findReplace key value (t1.buckets.getD i ⟨[]⟩).data with
    | some (newData, oldValue) =>
      some ({ buckets := t1.buckets.set i ⟨newData⟩, len := t1.len },
            some oldValue)
    | none =>
      some ({ buckets := pushAt t1.buckets i (key, value),
              len := t1.len + 1 }, none)

/-- `HashMap::insert`. -/
def insert (hash : K → Nat) (t : HashMap K V) (key : K) (value : V) :
    Option (HashMap K V × Option V) :=
  insertAfterResize hash
    (if t.len = 0 ∨ 3 * t.buckets.length ≤ 4 * t.len then resize hash t
     else t) key value

/-- `HashMap::remove` at `Q = K` (`k.borrow() == key` is `k = key`). -/
def remove (hash : K → Nat) (t : HashMap K V) (key : K) :
    Option (HashMap K V × Option V) :=
  match bucketIndex hash key t.buckets.length with
  | none => none
  | some i =>
    match findPos (fun p => decide (p.1 = key))
        (t.buckets.getD i ⟨[]⟩).data with
    | none => some (t, none)
    | some j =>
      match swapRemove (t.buckets.getD i ⟨[]⟩).data j with
      | none => none
      | some (newData, kv) =>
        some ({ buckets := t.buckets.set i ⟨newData⟩, len := t.len - 1 },
              some kv.2)

/-- `HashMap::get` at `Q = K`. -/
def get (hash : K → Nat) (t : HashMap K V) (key : K) : Option (Option V) :=
  match bucketIndex hash key t.buckets.length with
  | none => none
  | some i =>
    some ((((t.buckets.getD i ⟨[]⟩).data.find?
      fun p => decide (p.1 = key))).map Prod.snd)

/-- `HashMap::contains_key` at `Q = K`. -/
def containsKey (hash : K → Nat) (t : HashMap K V) (key : K) :
    Option Bool :=
  (get hash t key).map Option.isSome

end HashMap

/-- One call of the public API, for comparing the two implementations
operation by operation (claim C9). -/
inductive Op (K V : Type) where
  | insertOp (k : K) (v : V)
  | removeOp (k : K)
  | getOp (k : K)
  | containsOp (k : K)
  | lenOp
  | isEmptyOp

/-- Observable return value of one API call. -/
inductive OutVal (V : Type) where
  | ov (o : Option V)
  | bool (b : Bool)
  | nat (n : Nat)
deriving DecidableEq

/-- One step of the `Chained` implementation; `none` is a panic. -/
def Chained.step {K V : Type} [DecidableEq K] (hash : K → Nat)
    (t : Chained K V) : Op K V → Option (Chained K V × OutVal V)
  | .insertOp k v => (Chained.insert hash t k v).map fun p => (p.1, .ov p.2)
  | .removeOp k => (Chained.remove hash t k).map fun p => (p.1, .ov p.2)
  | .getOp k => (Chained.get hash t k).map fun o => (t, .ov o)
  | .containsOp k => (Chained.containsKey hash t k).map fun b => (t, .bool b)
  | .lenOp => some (t, .nat t.len)
  | .isEmptyOp => some (t, .bool t.isEmpty)

/-- Run a sequence of operations on `Chained`, recording each return
value; execution stops at the first panic, in which case the final state
is `none`. -/
def Chained.run {K V : Type} [DecidableEq K] (hash : K → Nat)
    (t : Chained K V) : List (Op K V) → List (OutVal V) × Option (Chained K V)
  | [] => ([], some t)
  | op :: ops =>
    match Chained.step hash t op with
    | none => ([], none)
    | some (t', out) =>
      let rest := Chained.run hash t' ops
      (out :: rest.1, rest.2)

/-- One step of the `HashMap` implementation; `none` is a panic. -/
def HashMap.step {K V : Type} [DecidableEq K] (hash : K → Nat)
    (t : HashMap K V) : Op K V → Option (HashMap K V × OutVal V)
  | .insertOp k v => (HashMap.insert hash t k v).map fun p => (p.1, .ov p.2)
  | .removeOp k => (HashMap.remove hash t k).map fun p => (p.1, .ov p.2)
  | .getOp k => (HashMap.get hash t k).map fun o => (t, .ov o)
  | .containsOp k => (HashMap.containsKey hash t k).map fun b => (t, .bool b)
  | .lenOp => some (t, .nat t.len)
  | .isEmptyOp => some (t, .bool t.isEmpty)

/-- Run a sequence of operations on `HashMap`. -/
def HashMap.run {K V : Type} [DecidableEq K] (hash : K → Nat)
    (t : HashMap K V) : List (Op K V) → List (OutVal V) × Option (HashMap K V)
  | [] => ([], some t)
  | op :: ops =>
    match HashMap.step hash t op with
    | none => ([], none)
    | some (t', out) =>
      let rest := HashMap.run hash t' ops
      (out :: rest.1, rest.2)

/-- The field-for-field correspondence between the two table types. -/
def toHashMap {K V : Type} (t : Chained K V) : HashMap K V :=
  { buckets := t.buckets, len := t.len }

/-- Run a sequence of `insert` calls, discarding the returned previous
values; `none` if any call panics. -/
def Chained.insertAll {K V : Type} [DecidableEq K] (hash : K → Nat)
    (t : Chained K V) : List (K × V) → Option (Chained K V)
  | [] => some t
  | kv :: rest =>
    match Chained.insert hash t kv.1 kv.2 with
    | none => none
    | some (t', _) => Chained.insertAll hash t' rest

/-! ### List-level helper lemmas -/

theorem eq_take_getD_drop {α : Type} (d : α) (l : List α) :
    ∀ i, i < l.length → l = l.take i ++ l.getD i d :: l.drop (i + 1) := by
  induction l with
  | nil => intro i h; simp at h
  | cons a l ih =>
    intro i h
    cases i with
    | zero => simp
    | succ i =>
      have h' : i < l.length := by simpa using h
      simpa using congrArg (a :: ·) (ih i h')

theorem set_eq_take_cons_drop {α : Type} (l : List α) {i : Nat} (b : α)
    (h : i < l.length) :
    l.set i b = l.take i ++ b :: l.drop (i + 1) := by
  rw [List.set_eq_take_append_cons_drop, if_pos h]

theorem getD_set_self {α : Type} (l : List α) {i : Nat} (b d : α)
    (h : i < l.length) : (l.set i b).getD i d = b := by
  rw [List.getD_eq_getElem?_getD]
  simp [List.getElem?_set, h]

theorem getD_set_ne {α : Type} (l : List α) {i j : Nat} (b d : α)
    (hne : i ≠ j) : (l.set i b).getD j d = l.getD j d := by
  rw [List.getD_eq_getElem?_getD, List.getD_eq_getElem?_getD]
  simp [List.getElem?_set, hne]

theorem set_append_cons {α : Type} (A : List α) (x y : α) (B : List α) :
    (A ++ x :: B).set A.length y = A ++ y :: B := by
  induction A with
  | nil => rfl
  | cons a A ih => simp [List.set_cons_succ, ih]

theorem findPos_eq_none_iff {α : Type} {p : α → Bool} {l : List α} :
    findPos p l = none ↔ ∀ a ∈ l, p a = false := by
  induction l with
  | nil => simp [findPos]
  | cons a l ih =>
    by_cases hpa : p a
    · simp [findPos, hpa]
    · simp [findPos, hpa, ih]

theorem findPos_eq_some {α : Type} {p : α → Bool} {l : List α} {j : Nat}
    (h : findPos p l = some j) :
    ∃ A x B, l = A ++ x :: B ∧ A.length = j ∧ p x = true ∧
      ∀ a ∈ A, p a = false := by
  induction l generalizing j with
  | nil => simp [findPos] at h
  | cons a l ih =>
    by_cases hpa : p a
    · refine ⟨[], a, l, by simp, ?_, hpa, by simp⟩
      simp [findPos, hpa] at h
      simpa using h
    · simp only [findPos, hpa, if_neg, Bool.false_eq_true, ite_false] at h
      obtain ⟨j', hj', rfl⟩ := Option.map_eq_some'.mp h
      obtain ⟨A, x, B, rfl, hA, hx, hall⟩ := ih hj'
      refine ⟨a :: A, x, B, rfl, by simp [hA], hx, ?_⟩
      intro b hb
      rcases List.mem_cons.mp hb with rfl | hb'
      · simpa using hpa
      · exact hall b hb'

theorem findReplace_eq_none_iff {K V : Type} [DecidableEq K] {key : K}
    {v : V} {l : List (K × V)} :
    findReplace key v l = none ↔ ∀ kv ∈ l, kv.1 ≠ key := by
  induction l with
  | nil => simp [findReplace]
  | cons kv l ih =>
    obtain ⟨k, u⟩ := kv
    by_cases hk : k = key
    · simp [findReplace, hk]
    · simp [findReplace, hk, ih]

theorem findReplace_eq_some {K V : Type} [DecidableEq K] {key : K} {v : V}
    {l l' : List (K × V)} {w : V} (h : findReplace key v l = some (l', w)) :
    ∃ A B, l = A ++ (key, w) :: B ∧ l' = A ++ (key, v) :: B ∧
      ∀ kv ∈ A, kv.1 ≠ key := by
  induction l generalizing l' w with
  | nil => simp [findReplace] at h
  | cons kv l ih =>
    obtain ⟨k, u⟩ := kv
    by_cases hk : k = key
    · subst hk
      have h' : ((k, v) :: l, u) = (l', w) := by simpa [findReplace] using h
      rw [Prod.ext_iff] at h'
      obtain ⟨hl', hw⟩ := h'
      simp only at hl' hw
      exact ⟨[], l, by simp [← hw], by simp [← hl'], by simp⟩
    · simp only [findReplace, hk, ite_false] at h
      obtain ⟨⟨l1, w1⟩, h1, h2⟩ := Option.map_eq_some'.mp h
      rw [Prod.ext_iff] at h2
      obtain ⟨hl', hw⟩ := h2
      simp only at hl' hw
      subst hw
      obtain ⟨A, B, rfl, hrw, hall⟩ := ih h1
      refine ⟨(k, u) :: A, B, rfl, ?_, ?_⟩
      · simp [← hl', hrw]
      · intro b hb
        rcases List.mem_cons.mp hb with rfl | hb'
        · simpa using hk
        · exact hall b hb'

theorem swapRemove_eq {α : Type} {l : List α} {j : Nat} {x last : α}
    (h1 : l[j]? = some x) (h2 : l.getLast? = some last) :
    swapRemove l j = some ((l.set j last).dropLast, x) := by
  unfold swapRemove
  rw [h1, h2]

theorem swapRemove_append {α : Type} (A : List α) (x : α) (B : List α) :
    ∃ R, swapRemove (A ++ x :: B) A.length = some (R, x) ∧
      R.Perm (A ++ B) := by
  have hget : (A ++ x :: B)[A.length]? = some x := by
    rw [List.getElem?_append_right le_rfl]
    simp
  rcases List.eq_nil_or_concat B with rfl | ⟨C, b, rfl⟩
  · refine ⟨A, ?_, by simp⟩
    rw [swapRemove_eq hget (List.getLast?_concat A), set_append_cons,
      List.dropLast_concat]
  · simp only [List.concat_eq_append] at hget ⊢
    refine ⟨A ++ b :: C, ?_, ?_⟩
    · have h2 : (A ++ x :: (C ++ [b])).getLast? = some b := by
        rw [show A ++ x :: (C ++ [b]) = (A ++ x :: C) ++ [b] by simp]
        exact List.getLast?_concat _
      rw [swapRemove_eq hget h2, set_append_cons,
        show A ++ b :: (C ++ [b]) = (A ++ b :: C) ++ [b] by simp,
        List.dropLast_concat]
    · exact List.Perm.append_left A
        (by simpa using @List.perm_append_comm _ [b] C)

/-! ### Bucket-array decomposition and association-lookup lemmas -/

namespace Chained

theorem flatMap_decomp {K V : Type} (bs : List (Bucket K V)) {i : Nat}
    (h : i < bs.length) :
    bs.flatMap Bucket.data =
      (bs.take i).flatMap Bucket.data ++ ((bs.getD i ⟨[]⟩).data ++
        (bs.drop (i + 1)).flatMap Bucket.data) := by
  conv_lhs => rw [eq_take_getD_drop (⟨[]⟩ : Bucket K V) bs i h]
  simp [List.append_assoc]

theorem flatMap_set_decomp {K V : Type} (bs : List (Bucket K V)) {i : Nat}
    (b : Bucket K V) (h : i < bs.length) :
    (bs.set i b).flatMap Bucket.data =
      (bs.take i).flatMap Bucket.data ++ (b.data ++
        (bs.drop (i + 1)).flatMap Bucket.data) := by
  rw [set_eq_take_cons_drop bs b h]
  simp [List.append_assoc]

theorem mem_getD_of_mem_flatMap {K V : Type} {bs : List (Bucket K V)}
    {kv : K × V} (h : kv ∈ bs.flatMap Bucket.data) :
    ∃ j, j < bs.length ∧ kv ∈ (bs.getD j ⟨[]⟩).data := by
  rw [List.mem_flatMap] at h
  obtain ⟨b, hb, hkv⟩ := h
  obtain ⟨j, hj, rfl⟩ := List.mem_iff_getElem.mp hb
  exact ⟨j, hj, by rwa [List.getD_eq_getElem _ _ hj]⟩

theorem lookupEntries_append {K V : Type} [DecidableEq K]
    (X Y : List (K × V)) (q : K) :
    lookupEntries (X ++ Y) q =
      (lookupEntries X q).or (lookupEntries Y q) := by
  unfold lookupEntries
  rw [List.find?_append]
  cases X.find? fun p => decide (p.1 = q) <;> simp

theorem lookupEntries_cons_ne {K V : Type} [DecidableEq K] {e : K × V}
    (Y : List (K × V)) {q : K} (h : e.1 ≠ q) :
    lookupEntries (e :: Y) q = lookupEntries Y q := by
  unfold lookupEntries
  rw [List.find?_cons]
  simp [h]

theorem lookupEntries_eq_none_iff {K V : Type} [DecidableEq K]
    {l : List (K × V)} {q : K} :
    lookupEntries l q = none ↔ ∀ kv ∈ l, kv.1 ≠ q := by
  unfold lookupEntries
  simp [List.find?_eq_none]

theorem lookupEntries_mem {K V : Type} [DecidableEq K]
    {l : List (K × V)} {q : K} {v : V} (h : lookupEntries l q = some v) :
    (q, v) ∈ l := by
  unfold lookupEntries at h
  obtain ⟨⟨k', v'⟩, hf, hv⟩ := Option.map_eq_some'.mp h
  have hmem := List.mem_of_find?_eq_some hf
  have hpred := List.find?_some hf
  simp only [decide_eq_true_eq] at hpred
  simp only at hv hpred
  subst hpred
  subst hv
  exact hmem

theorem keys_nodup_value_unique {K V : Type} {l : List (K × V)}
    (h : (l.map Prod.fst).Nodup) {q : K} {v v' : V}
    (h1 : (q, v) ∈ l) (h2 : (q, v') ∈ l) : v = v' := by
  induction l with
  | nil => simp at h1
  | cons e l ih =>
    obtain ⟨k0, u0⟩ := e
    simp only [List.map_cons, List.nodup_cons] at h
    obtain ⟨hknotin, hnd⟩ := h
    rcases List.mem_cons.mp h1 with h1e | h1'
    · rcases List.mem_cons.mp h2 with h2e | h2'
      · rw [Prod.ext_iff] at h1e h2e
        simp only at h1e h2e
        rw [h1e.2, h2e.2]
      · exfalso
        rw [Prod.ext_iff] at h1e
        simp only at h1e
        exact hknotin (h1e.1 ▸ List.mem_map_of_mem Prod.fst h2')
    · rcases List.mem_cons.mp h2 with h2e | h2'
      · exfalso
        rw [Prod.ext_iff] at h2e
        simp only at h2e
        exact hknotin (h2e.1 ▸ List.mem_map_of_mem Prod.fst h1')
      · exact ih hnd h1' h2'

theorem lookupEntries_eq_some_iff {K V : Type} [DecidableEq K]
    {l : List (K × V)} (h : (l.map Prod.fst).Nodup) {q : K} {v : V} :
    lookupEntries l q = some v ↔ (q, v) ∈ l := by
  constructor
  · exact lookupEntries_mem
  · intro hmem
    cases hl : lookupEntries l q with
    | none => exact absurd rfl (lookupEntries_eq_none_iff.mp hl _ hmem)
    | some w => rw [keys_nodup_value_unique h hmem (lookupEntries_mem hl)]

theorem lookupEntries_perm {K V : Type} [DecidableEq K]
    {l l' : List (K × V)} (hp : l.Perm l')
    (h : (l.map Prod.fst).Nodup) (q : K) :
    lookupEntries l q = lookupEntries l' q := by
  have h' : (l'.map Prod.fst).Nodup := (hp.map Prod.fst).nodup h
  cases hl : lookupEntries l q with
  | none =>
    symm
    rw [lookupEntries_eq_none_iff]
    intro kv hkv
    exact lookupEntries_eq_none_iff.mp hl kv (hp.symm.subset hkv)
  | some v =>
    symm
    rw [lookupEntries_eq_some_iff h']
    exact hp.subset (lookupEntries_mem hl)

theorem find?_flatMap_localized {K V : Type} (p : K × V → Bool) :
    ∀ (bs : List (Bucket K V)) (i : Nat),
      (∀ j, j < bs.length → j ≠ i →
        ∀ kv ∈ (bs.getD j ⟨[]⟩).data, p kv = false) →
      (bs.flatMap Bucket.data).find? p =
        ((bs.getD i ⟨[]⟩).data).find? p := by
  intro bs
  induction bs with
  | nil => intro i _; simp
  | cons b rest ih =>
    intro i h
    rw [List.flatMap_cons, List.find?_append]
    cases i with
    | zero =>
      have hnone : (rest.flatMap Bucket.data).find? p = none := by
        rw [List.find?_eq_none]
        intro kv hkv
        obtain ⟨j, hj, hmem⟩ := mem_getD_of_mem_flatMap hkv
        have hf := h (j + 1) (by simpa using hj) (Nat.succ_ne_zero j) kv
          (by simpa [List.getD_cons_succ] using hmem)
        simp [hf]
      rw [hnone, Option.or_none, List.getD_cons_zero]
    | succ i' =>
      have hb : b.data.find? p = none := by
        rw [List.find?_eq_none]
        intro kv hkv
        have hf := h 0 (by simp) (by omega) kv
          (by simpa [List.getD_cons_zero] using hkv)
        simp [hf]
      rw [hb, Option.none_or, List.getD_cons_succ]
      exact ih i' fun j hj hne kv hkv =>
        h (j + 1) (by simpa using hj) (by omega) kv
          (by simpa [List.getD_cons_succ] using hkv)

end Chained

/-! ### Scatter and resize lemmas -/

namespace Chained

variable {K V : Type} [DecidableEq K]

theorem length_pushAt (bs : List (Bucket K V)) (i : Nat) (kv : K × V) :
    (pushAt bs i kv).length = bs.length :=
  List.length_set bs i _

theorem pushAt_flatten_perm (bs : List (Bucket K V)) {i : Nat} (kv : K × V)
    (h : i < bs.length) :
    ((pushAt bs i kv).flatMap Bucket.data).Perm
      (bs.flatMap Bucket.data ++ [kv]) := by
  unfold pushAt
  rw [flatMap_set_decomp _ _ h]
  conv_rhs => rw [flatMap_decomp bs h]
  simp only
  rw [← Multiset.coe_eq_coe]
  simp only [← Multiset.coe_add, List.append_assoc]
  abel_nf

theorem scatter_length (hash : K → Nat) (n : Nat) (l : List (K × V)) :
    ∀ bs : List (Bucket K V), (scatter hash n l bs).length = bs.length := by
  induction l with
  | nil => intro bs; rfl
  | cons kv l ih =>
    intro bs
    have h1 : scatter hash n (kv :: l) bs =
        scatter hash n l (pushAt bs (hash kv.1 % n) kv) := rfl
    rw [h1, ih, length_pushAt]

theorem scatter_flatten_perm (hash : K → Nat) {n : Nat} (hn : 0 < n)
    (l : List (K × V)) :
    ∀ bs : List (Bucket K V), bs.length = n →
      ((scatter hash n l bs).flatMap Bucket.data).Perm
        (bs.flatMap Bucket.data ++ l) := by
  induction l with
  | nil => intro bs _; simp [scatter]
  | cons kv l ih =>
    intro bs hbs
    have hidx : hash kv.1 % n < bs.length := by
      rw [hbs]
      exact Nat.mod_lt _ hn
    have h1 : scatter hash n (kv :: l) bs =
        scatter hash n l (pushAt bs (hash kv.1 % n) kv) := rfl
    rw [h1]
    have h2 := ih (pushAt bs (hash kv.1 % n) kv)
      (by rw [length_pushAt, hbs])
    refine h2.trans ?_
    refine ((pushAt_flatten_perm bs kv hidx).append_right l).trans ?_
    rw [List.append_assoc]
    exact List.Perm.refl _

theorem scatter_placed (hash : K → Nat) {n : Nat} (l : List (K × V)) :
    ∀ bs : List (Bucket K V), bs.length = n →
      (∀ j < n, ∀ kv ∈ (bs.getD j ⟨[]⟩).data, hash kv.1 % n = j) →
      ∀ j < n, ∀ kv ∈ ((scatter hash n l bs).getD j ⟨[]⟩).data,
        hash kv.1 % n = j := by
  induction l with
  | nil => intro bs _ hplaced; exact hplaced
  | cons kv l ih =>
    intro bs hbs hplaced
    have h1 : scatter hash n (kv :: l) bs =
        scatter hash n l (pushAt bs (hash kv.1 % n) kv) := rfl
    rw [h1]
    apply ih (pushAt bs (hash kv.1 % n) kv) (by rw [length_pushAt, hbs])
    intro j hj kv' hkv'
    by_cases hji : j = hash kv.1 % n
    · subst hji
      have hidx : hash kv.1 % n < bs.length := by
        rw [hbs]
        exact hj
      unfold pushAt at hkv'
      rw [getD_set_self _ _ _ hidx] at hkv'
      simp only at hkv'
      rcases List.mem_append.mp hkv' with hold | hnew
      · exact hplaced _ hj kv' hold
      · rw [List.mem_singleton.mp hnew]
    · unfold pushAt at hkv'
      rw [getD_set_ne _ _ _ fun hh => hji hh.symm] at hkv'
      exact hplaced j hj kv' hkv'

theorem flatMap_replicate_nil (n : Nat) :
    (List.replicate n (⟨[]⟩ : Bucket K V)).flatMap Bucket.data = [] := by
  induction n with
  | zero => rfl
  | succ n ih => simp [List.replicate_succ, ih]

theorem getD_replicate_self {α : Type} (n j : Nat) (d : α) :
    (List.replicate n d).getD j d = d := by
  rw [List.getD_eq_getElem?_getD]
  rcases Nat.lt_or_ge j n with h | h
  · simp [List.getElem?_replicate, h]
  · simp [List.getElem?_replicate, Nat.not_lt.mpr h]

theorem foldl_scatter_eq (hash : K → Nat) (n : Nat) :
    ∀ (bs init : List (Bucket K V)),
      bs.foldl (fun acc b => scatter hash n b.data acc) init =
        scatter hash n (bs.flatMap Bucket.data) init := by
  intro bs
  induction bs with
  | nil => intro init; rfl
  | cons b rest ih =>
    intro init
    rw [List.foldl_cons, ih, List.flatMap_cons]
    unfold scatter
    rw [List.foldl_append]

theorem resize_len (hash : K → Nat) (t : Chained K V) :
    (resize hash t).len = t.len := rfl

theorem resize_buckets_zero (hash : K → Nat) (t : Chained K V)
    (h : t.len = 0) :
    (resize hash t).buckets =
      scatter hash 1 (entries t) (List.replicate 1 ⟨[]⟩) := by
  unfold resize
  rw [h]
  exact foldl_scatter_eq hash 1 t.buckets _

theorem resize_buckets_pos (hash : K → Nat) (t : Chained K V) {m : Nat}
    (h : t.len = m + 1) :
    (resize hash t).buckets =
      scatter hash ((m + 1) * 2) (entries t)
        (List.replicate ((m + 1) * 2) ⟨[]⟩) := by
  unfold resize
  rw [h]
  exact foldl_scatter_eq hash ((m + 1) * 2) t.buckets _

theorem resize_buckets_length (hash : K → Nat) (t : Chained K V) :
    (resize hash t).buckets.length = if t.len = 0 then 1 else t.len * 2 := by
  cases h : t.len with
  | zero => rw [resize_buckets_zero hash t h, scatter_length, if_pos rfl]; simp
  | succ m =>
    rw [resize_buckets_pos hash t h, scatter_length]
    simp

theorem resize_buckets_length_pos (hash : K → Nat) (t : Chained K V) :
    0 < (resize hash t).buckets.length := by
  rw [resize_buckets_length]
  split <;> omega

theorem resize_entries_perm (hash : K → Nat) (t : Chained K V) :
    (entries (resize hash t)).Perm (entries t) := by
  cases h : t.len with
  | zero =>
    have := scatter_flatten_perm hash (show 0 < 1 by omega) (entries t)
      (List.replicate 1 ⟨[]⟩) (by simp)
    rw [flatMap_replicate_nil] at this
    unfold entries
    rw [resize_buckets_zero hash t h]
    simpa using this
  | succ m =>
    have := scatter_flatten_perm hash (show 0 < (m + 1) * 2 by omega)
      (entries t) (List.replicate ((m + 1) * 2) ⟨[]⟩) (by simp)
    rw [flatMap_replicate_nil] at this
    unfold entries
    rw [resize_buckets_pos hash t h]
    simpa using this

theorem resize_placed (hash : K → Nat) (t : Chained K V) :
    ∀ j < (resize hash t).buckets.length,
      ∀ kv ∈ ((resize hash t).buckets.getD j ⟨[]⟩).data,
        hash kv.1 % (resize hash t).buckets.length = j := by
  have hlen := resize_buckets_length hash t
  cases h : t.len with
  | zero =>
    rw [h, if_pos rfl] at hlen
    rw [hlen]
    intro j hj kv hkv
    rw [resize_buckets_zero hash t h] at hkv
    refine scatter_placed hash (entries t) (List.replicate 1 ⟨[]⟩)
      (by simp) ?_ j hj kv hkv
    intro j' _ kv' hkv'
    rw [getD_replicate_self] at hkv'
    simp at hkv'
  | succ m =>
    rw [h] at hlen
    simp only [Nat.succ_ne_zero, ite_false] at hlen
    rw [hlen]
    intro j hj kv hkv
    rw [resize_buckets_pos hash t h] at hkv
    refine scatter_placed hash (entries t)
      (List.replicate ((m + 1) * 2) ⟨[]⟩) (by simp) ?_ j hj kv hkv
    intro j' _ kv' hkv'
    rw [getD_replicate_self] at hkv'
    simp at hkv'

theorem resize_inv (hash : K → Nat) (t : Chained K V) (h : Inv hash t) :
    Inv hash (resize hash t) := by
  obtain ⟨hlen, hnodup, _⟩ := h
  refine ⟨?_, ?_, resize_placed hash t⟩
  · rw [resize_len, (resize_entries_perm hash t).length_eq, hlen]
  · exact ((resize_entries_perm hash t).map Prod.fst).symm.nodup hnodup

/-! ### Reduction lemmas for get, remove, insert -/

theorem get_zero (hash : K → Nat) (t : Chained K V) (k : K)
    (h : t.buckets.length = 0) : get hash t k = none := by
  unfold get bucketIndex
  rw [if_pos h]

theorem remove_zero (hash : K → Nat) (t : Chained K V) (k : K)
    (h : t.buckets.length = 0) : remove hash t k = none := by
  unfold remove bucketIndex
  rw [if_pos h]

theorem containsKey_zero (hash : K → Nat) (t : Chained K V) (k : K)
    (h : t.buckets.length = 0) : containsKey hash t k = none := by
  unfold containsKey
  rw [get_zero hash t k h]
  rfl

theorem get_pos (hash : K → Nat) (t : Chained K V) (k : K)
    (h : t.buckets.length ≠ 0) :
    get hash t k = some
      (((t.buckets.getD (hash k % t.buckets.length) ⟨[]⟩).data.find?
        fun p => decide (p.1 = k)).map Prod.snd) := by
  unfold get bucketIndex
  rw [if_neg h]

theorem get_eq_lookup (hash : K → Nat) (t : Chained K V) (k : K)
    (hcap : 0 < t.buckets.length)
    (hplaced : ∀ i < t.buckets.length,
      ∀ kv ∈ (t.buckets.getD i ⟨[]⟩).data,
        hash kv.1 % t.buckets.length = i) :
    get hash t k = some (lookupEntries (entries t) k) := by
  rw [get_pos hash t k (by omega)]
  unfold lookupEntries entries
  rw [find?_flatMap_localized (fun p => decide (p.1 = k)) t.buckets
    (hash k % t.buckets.length) ?_]
  intro j hj hne kv hkv
  by_cases hkq : kv.1 = k
  · exfalso
    apply hne
    rw [← hplaced j hj kv hkv, hkq]
  · simp [hkq]

theorem lookupEntries_cons_hit (key : K) (w : V) (S : List (K × V)) :
    lookupEntries ((key, w) :: S) key = some w := by
  unfold lookupEntries
  rw [List.find?_cons]
  simp

theorem lookupEntries_singleton_ne {q key : K} (h : q ≠ key) (value : V) :
    lookupEntries [(key, value)] q = none := by
  unfold lookupEntries
  have hne : ¬key = q := fun hh => h hh.symm
  simp [hne]

theorem insertAfterResize_found (hash : K → Nat) (t1 : Chained K V)
    (key : K) (value : V) {newData : List (K × V)} {oldValue : V}
    (hcap : t1.buckets.length ≠ 0)
    (hfr : findReplace key value
      ((t1.buckets.getD (hash key % t1.buckets.length) ⟨[]⟩).data) =
        some (newData, oldValue)) :
    insertAfterResize hash t1 key value =
      some ({ buckets := t1.buckets.set (hash key % t1.buckets.length)
                ⟨newData⟩,
              len := t1.len }, some oldValue) := by
  simp only [insertAfterResize, bucketIndex, hcap, ite_false, hfr]

theorem insertAfterResize_notfound (hash : K → Nat) (t1 : Chained K V)
    (key : K) (value : V) (hcap : t1.buckets.length ≠ 0)
    (hfr : findReplace key value
      ((t1.buckets.getD (hash key % t1.buckets.length) ⟨[]⟩).data) =
        none) :
    insertAfterResize hash t1 key value =
      some ({ buckets := pushAt t1.buckets (hash key % t1.buckets.length)
                (key, value),
              len := t1.len + 1 }, none) := by
  simp only [insertAfterResize, bucketIndex, hcap, ite_false, hfr]

theorem cons_middle_perm {α : Type} (A B C : List α) (x : α) :
    (A ++ ((B ++ [x]) ++ C)).Perm (x :: (A ++ (B ++ C))) := by
  rw [← Multiset.coe_eq_coe]
  simp only [← Multiset.coe_add, ← Multiset.cons_coe, ← Multiset.singleton_add]
  abel

theorem erase_middle_perm {α : Type} (A P S C : List α) (x : α) :
    (A ++ ((P ++ x :: S) ++ C)).Perm (x :: (A ++ ((P ++ S) ++ C))) := by
  rw [← Multiset.coe_eq_coe]
  simp only [← Multiset.coe_add, ← Multiset.cons_coe, ← Multiset.singleton_add]
  abel

theorem lookup_entries_eq_bucket (hash : K → Nat) (t : Chained K V)
    (hplaced : ∀ i < t.buckets.length,
      ∀ kv ∈ (t.buckets.getD i ⟨[]⟩).data,
        hash kv.1 % t.buckets.length = i) (q : K) :
    lookupEntries (entries t) q =
      lookupEntries
        ((t.buckets.getD (hash q % t.buckets.length) ⟨[]⟩).data) q := by
  unfold lookupEntries entries
  rw [find?_flatMap_localized (fun p => decide (p.1 = q)) t.buckets
    (hash q % t.buckets.length) ?_]
  intro j hj hne kv hkv
  by_cases hkq : kv.1 = q
  · exfalso
    apply hne
    rw [← hplaced j hj kv hkv, hkq]
  · simp [hkq]

theorem get_eq_bucket_lookup (hash : K → Nat) (t : Chained K V) (q : K)
    (hcap : 0 < t.buckets.length) :
    get hash t q = some
      (lookupEntries
        ((t.buckets.getD (hash q % t.buckets.length) ⟨[]⟩).data) q) := by
  rw [get_pos hash t q (by omega)]
  rfl

theorem insertAfterResize_model (hash : K → Nat) (t1 : Chained K V)
    (key : K) (value : V) (hcap : 0 < t1.buckets.length)
    (hinv : Inv hash t1) :
    ∃ t' r, insertAfterResize hash t1 key value = some (t', r) ∧
      Inv hash t' ∧
      t'.buckets.length = t1.buckets.length ∧
      r = lookupEntries (entries t1) key ∧
      t'.len = (if r.isSome then t1.len else t1.len + 1) ∧
      ∀ q, get hash t' q =
        some (if q = key then some value
          else lookupEntries (entries t1) q) := by
  obtain ⟨hlen, hnodup, hplaced⟩ := hinv
  have hcapne : t1.buckets.length ≠ 0 := by omega
  have hi_lt : hash key % t1.buckets.length < t1.buckets.length :=
    Nat.mod_lt _ hcap
  have hloc := lookup_entries_eq_bucket hash t1 hplaced
  have hdecomp : entries t1 =
      (t1.buckets.take (hash key % t1.buckets.length)).flatMap
          Bucket.data ++
        ((t1.buckets.getD (hash key % t1.buckets.length) ⟨[]⟩).data ++
          (t1.buckets.drop (hash key % t1.buckets.length + 1)).flatMap
            Bucket.data) :=
    flatMap_decomp t1.buckets hi_lt
  cases hfr : findReplace key value
      ((t1.buckets.getD (hash key % t1.buckets.length) ⟨[]⟩).data) with
  | some p =>
    obtain ⟨newData, oldValue⟩ := p
    obtain ⟨P, S, hlPS, hl'PS, hPkeys⟩ := findReplace_eq_some hfr
    have hlookup_l : lookupEntries
        ((t1.buckets.getD (hash key % t1.buckets.length) ⟨[]⟩).data) key =
          some oldValue := by
      rw [hlPS, lookupEntries_append,
        lookupEntries_eq_none_iff.mpr hPkeys, Option.none_or,
        lookupEntries_cons_hit]
    have hkeys : newData.map Prod.fst =
        ((t1.buckets.getD (hash key % t1.buckets.length) ⟨[]⟩).data).map
          Prod.fst := by
      rw [hlPS, hl'PS]
      simp
    have hn' : (t1.buckets.set (hash key % t1.buckets.length)
        ⟨newData⟩).length = t1.buckets.length := List.length_set _ _ _
    have hdecomp2 : (t1.buckets.set (hash key % t1.buckets.length)
          ⟨newData⟩).flatMap Bucket.data =
        (t1.buckets.take (hash key % t1.buckets.length)).flatMap
            Bucket.data ++
          (newData ++
            (t1.buckets.drop (hash key % t1.buckets.length + 1)).flatMap
              Bucket.data) :=
      flatMap_set_decomp t1.buckets ⟨newData⟩ hi_lt
    have hkeysE : ((t1.buckets.set (hash key % t1.buckets.length)
          ⟨newData⟩).flatMap Bucket.data).map Prod.fst =
        (entries t1).map Prod.fst := by
      rw [hdecomp2]
      conv_rhs => rw [hdecomp]
      simp only [List.map_append]
      rw [hkeys]
    have hlenE : ((t1.buckets.set (hash key % t1.buckets.length)
          ⟨newData⟩).flatMap Bucket.data).length = (entries t1).length := by
      have hlm := congrArg List.length hkeysE
      simpa using hlm
    refine ⟨_, some oldValue,
      insertAfterResize_found hash t1 key value hcapne hfr,
      ⟨?_, ?_, ?_⟩, ?_, ?_, ?_, ?_⟩
    · show t1.len = ((t1.buckets.set (hash key % t1.buckets.length)
        ⟨newData⟩).flatMap Bucket.data).length
      rw [hlenE, hlen]
    · show (((t1.buckets.set (hash key % t1.buckets.length)
        ⟨newData⟩).flatMap Bucket.data).map Prod.fst).Nodup
      rw [hkeysE]
      exact hnodup
    · show ∀ j < (t1.buckets.set (hash key % t1.buckets.length)
          ⟨newData⟩).length,
        ∀ kv ∈ ((t1.buckets.set (hash key % t1.buckets.length)
          ⟨newData⟩).getD j ⟨[]⟩).data,
          hash kv.1 % (t1.buckets.set (hash key % t1.buckets.length)
            ⟨newData⟩).length = j
      rw [hn']
      intro j hj kv hkv
      by_cases hji : j = hash key % t1.buckets.length
      · subst hji
        rw [getD_set_self _ _ _ hi_lt] at hkv
        dsimp only at hkv
        have hk1 : kv.1 ∈ ((t1.buckets.getD
            (hash key % t1.buckets.length) ⟨[]⟩).data).map Prod.fst := by
          rw [← hkeys]
          exact List.mem_map_of_mem Prod.fst hkv
        obtain ⟨kv0, hkv0, hfst⟩ := List.mem_map.mp hk1
        rw [← hfst]
        exact hplaced _ hi_lt kv0 hkv0
      · rw [getD_set_ne _ _ _ fun hh => hji hh.symm] at hkv
        exact hplaced j hj kv hkv
    · exact hn'
    · rw [hloc key]
      exact hlookup_l.symm
    · rfl
    · intro q
      have hcap' : 0 < (t1.buckets.set (hash key % t1.buckets.length)
          ⟨newData⟩).length := by
        rw [hn']
        exact hcap
      have hred := get_eq_bucket_lookup hash
        (⟨t1.buckets.set (hash key % t1.buckets.length) ⟨newData⟩,
          t1.len⟩ : Chained K V) q hcap'
      dsimp only at hred
      rw [hred, hn']
      by_cases hq : q = key
      · subst hq
        rw [if_pos rfl, getD_set_self _ _ _ hi_lt]
        dsimp only
        rw [hl'PS, lookupEntries_append,
          lookupEntries_eq_none_iff.mpr hPkeys, Option.none_or,
          lookupEntries_cons_hit]
      · rw [if_neg hq]
        by_cases hqi : hash q % t1.buckets.length =
            hash key % t1.buckets.length
        · rw [hqi, getD_set_self _ _ _ hi_lt]
          dsimp only
          rw [hloc q, hqi]
          congr 1
          rw [hl'PS, hlPS, lookupEntries_append, lookupEntries_append,
            lookupEntries_cons_ne _ (fun hh => hq hh.symm : ¬key = q),
            lookupEntries_cons_ne _ (fun hh => hq hh.symm : ¬key = q)]
        · rw [getD_set_ne _ _ _ fun hh => hqi hh.symm, hloc q]
  | none =>
    have hnone : ∀ kv ∈ (t1.buckets.getD (hash key % t1.buckets.length)
        ⟨[]⟩).data, kv.1 ≠ key := findReplace_eq_none_iff.mp hfr
    have hlookup_l : lookupEntries
        ((t1.buckets.getD (hash key % t1.buckets.length) ⟨[]⟩).data) key =
          none := lookupEntries_eq_none_iff.mpr hnone
    have hkeynotin : key ∉ (entries t1).map Prod.fst := by
      intro hmem
      obtain ⟨kv, hkv, hfst⟩ := List.mem_map.mp hmem
      exact lookupEntries_eq_none_iff.mp
        (by rw [hloc key]; exact hlookup_l) kv hkv hfst
    have hn' : (pushAt t1.buckets (hash key % t1.buckets.length)
        (key, value)).length = t1.buckets.length := length_pushAt _ _ _
    have hdecomp2 : (pushAt t1.buckets (hash key % t1.buckets.length)
          (key, value)).flatMap Bucket.data =
        (t1.buckets.take (hash key % t1.buckets.length)).flatMap
            Bucket.data ++
          (((t1.buckets.getD (hash key % t1.buckets.length) ⟨[]⟩).data ++
              [(key, value)]) ++
            (t1.buckets.drop (hash key % t1.buckets.length + 1)).flatMap
              Bucket.data) :=
      flatMap_set_decomp t1.buckets _ hi_lt
    have hperm : ((pushAt t1.buckets (hash key % t1.buckets.length)
          (key, value)).flatMap Bucket.data).Perm
        ((key, value) :: entries t1) := by
      rw [hdecomp2]
      conv_rhs => rw [hdecomp]
      exact cons_middle_perm _ _ _ _
    refine ⟨_, none,
      insertAfterResize_notfound hash t1 key value hcapne hfr,
      ⟨?_, ?_, ?_⟩, ?_, ?_, ?_, ?_⟩
    · show t1.len + 1 = ((pushAt t1.buckets
        (hash key % t1.buckets.length) (key, value)).flatMap
          Bucket.data).length
      rw [hperm.length_eq]
      simp [hlen]
    · show (((pushAt t1.buckets (hash key % t1.buckets.length)
        (key, value)).flatMap Bucket.data).map Prod.fst).Nodup
      refine ((hperm.map Prod.fst).symm).nodup ?_
      simp only [List.map_cons]
      exact List.nodup_cons.mpr ⟨hkeynotin, hnodup⟩
    · show ∀ j < (pushAt t1.buckets (hash key % t1.buckets.length)
          (key, value)).length,
        ∀ kv ∈ ((pushAt t1.buckets (hash key % t1.buckets.length)
          (key, value)).getD j ⟨[]⟩).data,
          hash kv.1 % (pushAt t1.buckets (hash key % t1.buckets.length)
            (key, value)).length = j
      rw [hn']
      intro j hj kv hkv
      by_cases hji : j = hash key % t1.buckets.length
      · subst hji
        unfold pushAt at hkv
        rw [getD_set_self _ _ _ hi_lt] at hkv
        dsimp only at hkv
        rcases List.mem_append.mp hkv with hold | hnew
        · exact hplaced _ hi_lt kv hold
        · rw [List.mem_singleton.mp hnew]
      · unfold pushAt at hkv
        rw [getD_set_ne _ _ _ fun hh => hji hh.symm] at hkv
        exact hplaced j hj kv hkv
    · exact hn'
    · rw [hloc key]
      exact hlookup_l.symm
    · rfl
    · intro q
      have hcap' : 0 < (pushAt t1.buckets (hash key % t1.buckets.length)
          (key, value)).length := by
        rw [hn']
        exact hcap
      have hred := get_eq_bucket_lookup hash
        (⟨pushAt t1.buckets (hash key % t1.buckets.length) (key, value),
          t1.len + 1⟩ : Chained K V) q hcap'
      dsimp only at hred
      rw [hred, hn']
      by_cases hq : q = key
      · subst hq
        rw [if_pos rfl]
        unfold pushAt
        rw [getD_set_self _ _ _ hi_lt]
        dsimp only
        rw [lookupEntries_append, hlookup_l, Option.none_or,
          lookupEntries_cons_hit]
      · rw [if_neg hq]
        by_cases hqi : hash q % t1.buckets.length =
            hash key % t1.buckets.length
        · rw [hqi]
          unfold pushAt
          rw [getD_set_self _ _ _ hi_lt]
          dsimp only
          rw [lookupEntries_append, lookupEntries_singleton_ne hq,
            Option.or_none, hloc q, hqi]
        · unfold pushAt
          rw [getD_set_ne _ _ _ fun hh => hqi hh.symm, hloc q]

theorem insert_model (hash : K → Nat) (t : Chained K V) (key : K)
    (value : V) (hinv : Inv hash t) :
    ∃ t' r, insert hash t key value = some (t', r) ∧
      Inv hash t' ∧
      0 < t'.buckets.length ∧
      r = lookupEntries (entries t) key ∧
      t'.len = (if r.isSome then t.len else t.len + 1) ∧
      ∀ q, get hash t' q =
        some (if q = key then some value
          else lookupEntries (entries t) q) := by
  unfold insert
  by_cases hcond : t.len = 0 ∨ 3 * t.buckets.length ≤ 4 * t.len
  · rw [if_pos hcond]
    have hinv1 : Inv hash (resize hash t) := resize_inv hash t hinv
    have hcap1 : 0 < (resize hash t).buckets.length :=
      resize_buckets_length_pos hash t
    obtain ⟨t', r, heq, hinv', hcap', hr, hlen', hget⟩ :=
      insertAfterResize_model hash (resize hash t) key value hcap1 hinv1
    have hlookup_eq : ∀ q, lookupEntries (entries (resize hash t)) q =
        lookupEntries (entries t) q := fun q =>
      lookupEntries_perm (resize_entries_perm hash t) hinv1.2.1 q
    refine ⟨t', r, heq, hinv', by omega, ?_, ?_, ?_⟩
    · rw [hr, hlookup_eq key]
    · rw [hlen', resize_len]
    · intro q
      rw [hget q, hlookup_eq q]
  · rw [if_neg hcond]
    push_neg at hcond
    have hcap : 0 < t.buckets.length := by omega
    obtain ⟨t', r, heq, hinv', hcap', hr, hlen', hget⟩ :=
      insertAfterResize_model hash t key value hcap hinv
    exact ⟨t', r, heq, hinv', by omega, hr, hlen', hget⟩

theorem remove_found (hash : K → Nat) (t : Chained K V) (key : K)
    {j : Nat} {R : List (K × V)} {x : K × V}
    (hcap : t.buckets.length ≠ 0)
    (hpos : findPos (fun p => decide (p.1 = key))
      ((t.buckets.getD (hash key % t.buckets.length) ⟨[]⟩).data) = some j)
    (hsw : swapRemove
      ((t.buckets.getD (hash key % t.buckets.length) ⟨[]⟩).data) j =
        some (R, x)) :
    remove hash t key =
      some ({ buckets := t.buckets.set (hash key % t.buckets.length) ⟨R⟩,
              len := t.len - 1 }, some x.2) := by
  simp only [remove, bucketIndex, hcap, ite_false, hpos, hsw]

theorem remove_notfound (hash : K → Nat) (t : Chained K V) (key : K)
    (hcap : t.buckets.length ≠ 0)
    (hpos : findPos (fun p => decide (p.1 = key))
      ((t.buckets.getD (hash key % t.buckets.length) ⟨[]⟩).data) = none) :
    remove hash t key = some (t, none) := by
  simp only [remove, bucketIndex, hcap, ite_false, hpos]

theorem remove_model (hash : K → Nat) (t : Chained K V) (key : K)
    (hcap : 0 < t.buckets.length) (hinv : Inv hash t) :
    ∃ t' r, remove hash t key = some (t', r) ∧
      Inv hash t' ∧
      t'.buckets.length = t.buckets.length ∧
      r = lookupEntries (entries t) key ∧
      (r = none → t' = t) ∧
      t'.len = (if r.isSome then t.len - 1 else t.len) ∧
      (r.isSome → 0 < t.len) ∧
      ∀ q, get hash t' q =
        some (if q = key then none else lookupEntries (entries t) q) := by
  obtain ⟨hlen, hnodup, hplaced⟩ := hinv
  have hcapne : t.buckets.length ≠ 0 := by omega
  have hi_lt : hash key % t.buckets.length < t.buckets.length :=
    Nat.mod_lt _ hcap
  have hloc := lookup_entries_eq_bucket hash t hplaced
  have hdecomp : entries t =
      (t.buckets.take (hash key % t.buckets.length)).flatMap Bucket.data ++
        ((t.buckets.getD (hash key % t.buckets.length) ⟨[]⟩).data ++
          (t.buckets.drop (hash key % t.buckets.length + 1)).flatMap
            Bucket.data) :=
    flatMap_decomp t.buckets hi_lt
  have hsubl : ((t.buckets.getD (hash key % t.buckets.length)
      ⟨[]⟩).data).Sublist (entries t) := by
    rw [hdecomp]
    exact ((List.sublist_append_left _ _).trans
      (List.sublist_append_right _ _))
  have hnodup_l : (((t.buckets.getD (hash key % t.buckets.length)
      ⟨[]⟩).data).map Prod.fst).Nodup :=
    (hsubl.map Prod.fst).nodup hnodup
  cases hpos : findPos (fun p => decide (p.1 = key))
      ((t.buckets.getD (hash key % t.buckets.length) ⟨[]⟩).data) with
  | none =>
    have hnone : ∀ kv ∈ (t.buckets.getD (hash key % t.buckets.length)
        ⟨[]⟩).data, kv.1 ≠ key := by
      intro kv hkv
      exact of_decide_eq_false (findPos_eq_none_iff.mp hpos kv hkv)
    have hlookup_l : lookupEntries
        ((t.buckets.getD (hash key % t.buckets.length) ⟨[]⟩).data) key =
          none := lookupEntries_eq_none_iff.mpr hnone
    refine ⟨t, none, remove_notfound hash t key hcapne hpos,
      ⟨hlen, hnodup, hplaced⟩, rfl, ?_, fun _ => rfl, rfl, ?_, ?_⟩
    · rw [hloc key]
      exact hlookup_l.symm
    · intro hh
      exact absurd hh (by simp)
    · intro q
      rw [get_eq_bucket_lookup hash t q hcap]
      by_cases hq : q = key
      · subst hq
        rw [if_pos rfl, hlookup_l]
      · rw [if_neg hq, hloc q]
  | some j =>
    obtain ⟨P, x, S, hlPS, hPlen, hx, hPfalse⟩ := findPos_eq_some hpos
    have hxkey : x.1 = key := of_decide_eq_true hx
    have hPkeys : ∀ kv ∈ P, kv.1 ≠ key := fun kv hkv =>
      of_decide_eq_false (hPfalse kv hkv)
    obtain ⟨R, hsw0, hRperm⟩ := swapRemove_append P x S
    have hsw : swapRemove ((t.buckets.getD
        (hash key % t.buckets.length) ⟨[]⟩).data) j = some (R, x) := by
      rw [hlPS, ← hPlen]
      exact hsw0
    have hlookup_l : lookupEntries
        ((t.buckets.getD (hash key % t.buckets.length) ⟨[]⟩).data) key =
          some x.2 := by
      rw [hlPS, lookupEntries_append,
        lookupEntries_eq_none_iff.mpr hPkeys, Option.none_or]
      unfold lookupEntries
      rw [List.find?_cons]
      simp [hxkey]
    have hn' : (t.buckets.set (hash key % t.buckets.length)
        ⟨R⟩).length = t.buckets.length := List.length_set _ _ _
    have hdecomp2 : (t.buckets.set (hash key % t.buckets.length)
          ⟨R⟩).flatMap Bucket.data =
        (t.buckets.take (hash key % t.buckets.length)).flatMap
            Bucket.data ++
          (R ++ (t.buckets.drop (hash key % t.buckets.length + 1)).flatMap
            Bucket.data) :=
      flatMap_set_decomp t.buckets ⟨R⟩ hi_lt
    have hpermR : ((t.buckets.set (hash key % t.buckets.length)
          ⟨R⟩).flatMap Bucket.data).Perm
        ((t.buckets.take (hash key % t.buckets.length)).flatMap
            Bucket.data ++
          ((P ++ S) ++
            (t.buckets.drop (hash key % t.buckets.length + 1)).flatMap
              Bucket.data)) := by
      rw [hdecomp2]
      exact List.Perm.append_left _ (hRperm.append_right _)
    have hperm : (entries t).Perm
        (x :: (t.buckets.set (hash key % t.buckets.length)
          ⟨R⟩).flatMap Bucket.data) := by
      conv_lhs => rw [hdecomp, hlPS]
      exact (erase_middle_perm _ _ _ _ _).trans (hpermR.symm.cons x)
    have hkeysnl : key ∉ (P ++ S).map Prod.fst := by
      have hh : ((P ++ x :: S).map Prod.fst).Nodup := by
        rw [← hlPS]
        exact hnodup_l
      rw [List.map_append, List.map_cons, hxkey] at hh
      rw [List.map_append]
      exact (List.nodup_cons.mp (List.nodup_middle.mp hh)).1
    have hlookupR_key : lookupEntries R key = none := by
      rw [lookupEntries_eq_none_iff]
      intro kv hkv hfst
      exact hkeysnl (hfst ▸ List.mem_map_of_mem Prod.fst
        (hRperm.subset hkv))
    have hnodupPS : ((P ++ S).map Prod.fst).Nodup := by
      have hh : ((P ++ x :: S).map Prod.fst).Nodup := by
        rw [← hlPS]
        exact hnodup_l
      rw [List.map_append, List.map_cons] at hh
      rw [List.map_append]
      exact (List.nodup_cons.mp (List.nodup_middle.mp hh)).2
    have hlookupR : ∀ q, q ≠ key → lookupEntries R q =
        lookupEntries ((t.buckets.getD (hash key % t.buckets.length)
          ⟨[]⟩).data) q := by
      intro q hq
      rw [lookupEntries_perm hRperm
        ((hRperm.map Prod.fst).symm.nodup hnodupPS) q]
      rw [hlPS, lookupEntries_append, lookupEntries_append,
        lookupEntries_cons_ne _ (show x.1 ≠ q from
          fun hh => hq (hh.symm.trans hxkey))]
    refine ⟨_, some x.2, remove_found hash t key hcapne hpos hsw,
      ⟨?_, ?_, ?_⟩, ?_, ?_, ?_, ?_, ?_, ?_⟩
    · show t.len - 1 = ((t.buckets.set (hash key % t.buckets.length)
        ⟨R⟩).flatMap Bucket.data).length
      have hh := hperm.length_eq
      simp only [List.length_cons] at hh
      omega
    · show (((t.buckets.set (hash key % t.buckets.length)
        ⟨R⟩).flatMap Bucket.data).map Prod.fst).Nodup
      have hh := (hperm.map Prod.fst).nodup hnodup
      simp only [List.map_cons] at hh
      exact (List.nodup_cons.mp hh).2
    · show ∀ j' < (t.buckets.set (hash key % t.buckets.length)
          ⟨R⟩).length,
        ∀ kv ∈ ((t.buckets.set (hash key % t.buckets.length)
          ⟨R⟩).getD j' ⟨[]⟩).data,
          hash kv.1 % (t.buckets.set (hash key % t.buckets.length)
            ⟨R⟩).length = j'
      rw [hn']
      intro j' hj' kv hkv
      by_cases hji : j' = hash key % t.buckets.length
      · subst hji
        rw [getD_set_self _ _ _ hi_lt] at hkv
        dsimp only at hkv
        have hmem : kv ∈ (t.buckets.getD (hash key % t.buckets.length)
            ⟨[]⟩).data := by
          rw [hlPS]
          rcases List.mem_append.mp (hRperm.subset hkv) with hp | hs
          · exact List.mem_append.mpr (Or.inl hp)
          · exact List.mem_append.mpr (Or.inr (List.mem_cons_of_mem _ hs))
        exact hplaced _ hi_lt kv hmem
      · rw [getD_set_ne _ _ _ fun hh => hji hh.symm] at hkv
        exact hplaced j' hj' kv hkv
    · exact hn'
    · rw [hloc key]
      exact hlookup_l.symm
    · intro hh
      exact absurd hh (by simp)
    · rfl
    · intro _
      have hh := hperm.length_eq
      simp only [List.length_cons] at hh
      omega
    · intro q
      have hcap' : 0 < (t.buckets.set (hash key % t.buckets.length)
          ⟨R⟩).length := by
        rw [hn']
        exact hcap
      have hred := get_eq_bucket_lookup hash
        (⟨t.buckets.set (hash key % t.buckets.length) ⟨R⟩,
          t.len - 1⟩ : Chained K V) q hcap'
      dsimp only at hred
      rw [hred, hn']
      by_cases hq : q = key
      · subst hq
        rw [if_pos rfl, getD_set_self _ _ _ hi_lt]
        dsimp only
        rw [hlookupR_key]
      · rw [if_neg hq]
        by_cases hqi : hash q % t.buckets.length =
            hash key % t.buckets.length
        · rw [hqi, getD_set_self _ _ _ hi_lt]
          dsimp only
          rw [hlookupR q hq, hloc q, hqi]
        · rw [getD_set_ne _ _ _ fun hh => hqi hh.symm, hloc q]

theorem insertAfterResize_zero (hash : K → Nat) (t1 : Chained K V)
    (key : K) (value : V) (hcap : t1.buckets.length = 0) :
    insertAfterResize hash t1 key value = none := by
  simp only [insertAfterResize, bucketIndex, hcap, ite_true]

theorem insertAfterResize_shape (hash : K → Nat) (t1 : Chained K V)
    (key : K) (value : V) (t' : Chained K V) (r : Option V)
    (h : insertAfterResize hash t1 key value = some (t', r)) :
    t'.buckets.length = t1.buckets.length ∧
    (t'.len = t1.len ∨ t'.len = t1.len + 1) := by
  by_cases hcap : t1.buckets.length = 0
  · rw [insertAfterResize_zero hash t1 key value hcap] at h
    exact absurd h (by simp)
  · cases hfr : findReplace key value
        ((t1.buckets.getD (hash key % t1.buckets.length) ⟨[]⟩).data) with
    | some p =>
      obtain ⟨newData, oldValue⟩ := p
      rw [insertAfterResize_found hash t1 key value hcap hfr] at h
      obtain ⟨h1, h2⟩ := Prod.ext_iff.mp (Option.some.inj h)
      dsimp only at h1
      rw [← h1]
      exact ⟨List.length_set _ _ _, Or.inl rfl⟩
    | none =>
      rw [insertAfterResize_notfound hash t1 key value hcap hfr] at h
      obtain ⟨h1, h2⟩ := Prod.ext_iff.mp (Option.some.inj h)
      dsimp only at h1
      rw [← h1]
      exact ⟨length_pushAt _ _ _, Or.inr rfl⟩

theorem insertAfterResize_get (hash : K → Nat) (t1 : Chained K V)
    (key : K) (value : V) (hcap : t1.buckets.length ≠ 0) :
    ∃ t' r, insertAfterResize hash t1 key value = some (t', r) ∧
      get hash t' key = some (some value) := by
  have hi_lt : hash key % t1.buckets.length < t1.buckets.length :=
    Nat.mod_lt _ (by omega)
  cases hfr : findReplace key value
      ((t1.buckets.getD (hash key % t1.buckets.length) ⟨[]⟩).data) with
  | some p =>
    obtain ⟨newData, oldValue⟩ := p
    obtain ⟨P, S, hlPS, hl'PS, hPkeys⟩ := findReplace_eq_some hfr
    refine ⟨_, _, insertAfterResize_found hash t1 key value hcap hfr, ?_⟩
    have hn' : (t1.buckets.set (hash key % t1.buckets.length)
        ⟨newData⟩).length = t1.buckets.length := List.length_set _ _ _
    have hred := get_eq_bucket_lookup hash
      (⟨t1.buckets.set (hash key % t1.buckets.length) ⟨newData⟩,
        t1.len⟩ : Chained K V) key (by rw [hn']; omega)
    dsimp only at hred
    rw [hred, hn', getD_set_self _ _ _ hi_lt]
    dsimp only
    rw [hl'PS, lookupEntries_append,
      lookupEntries_eq_none_iff.mpr hPkeys, Option.none_or,
      lookupEntries_cons_hit]
  | none =>
    have hnone : ∀ kv ∈ (t1.buckets.getD (hash key % t1.buckets.length)
        ⟨[]⟩).data, kv.1 ≠ key := findReplace_eq_none_iff.mp hfr
    refine ⟨_, _, insertAfterResize_notfound hash t1 key value hcap hfr,
      ?_⟩
    have hn' : (pushAt t1.buckets (hash key % t1.buckets.length)
        (key, value)).length = t1.buckets.length := length_pushAt _ _ _
    have hred := get_eq_bucket_lookup hash
      (⟨pushAt t1.buckets (hash key % t1.buckets.length) (key, value),
        t1.len + 1⟩ : Chained K V) key (by rw [hn']; omega)
    dsimp only at hred
    rw [hred, hn']
    unfold pushAt
    rw [getD_set_self _ _ _ hi_lt]
    dsimp only
    rw [lookupEntries_append,
      lookupEntries_eq_none_iff.mpr hnone, Option.none_or,
      lookupEntries_cons_hit]

theorem resize_load (hash : K → Nat) (t : Chained K V) :
    4 * (resize hash t).len ≤ 3 * (resize hash t).buckets.length := by
  rw [resize_len, resize_buckets_length]
  by_cases h0 : t.len = 0
  · rw [if_pos h0]
    omega
  · rw [if_neg h0]
    omega

theorem insert_cap_of_len_zero (hash : K → Nat) (t : Chained K V)
    (key : K) (value : V) (t' : Chained K V) (r : Option V)
    (h0 : t.len = 0) (h : insert hash t key value = some (t', r)) :
    t'.buckets.length = 1 := by
  unfold insert at h
  rw [if_pos (Or.inl h0)] at h
  obtain ⟨hcap', _⟩ := insertAfterResize_shape hash _ key value t' r h
  rw [hcap', resize_buckets_length, if_pos h0]

theorem Inv_new (hash : K → Nat) : Inv hash (new : Chained K V) := by
  refine ⟨rfl, by simp [entries, new], ?_⟩
  intro i hi
  simp [new] at hi

theorem insertAll_model (hash : K → Nat) (l : List (K × V)) :
    ∀ t : Chained K V, Inv hash t → (l.map Prod.fst).Nodup →
      (∀ kv ∈ l, lookupEntries (entries t) kv.1 = none) →
      ∃ t', insertAll hash t l = some t' ∧ Inv hash t' ∧
        t'.len = t.len + l.length ∧
        (l = [] ∧ t' = t ∨ 0 < t'.buckets.length) ∧
        (∀ kv ∈ l, lookupEntries (entries t') kv.1 = some kv.2) ∧
        ∀ q, (∀ kv ∈ l, kv.1 ≠ q) →
          lookupEntries (entries t') q = lookupEntries (entries t) q := by
  induction l with
  | nil =>
    intro t hinv _ _
    exact ⟨t, rfl, hinv, by simp [insertAll], Or.inl ⟨rfl, rfl⟩,
      by simp, fun q _ => rfl⟩
  | cons kv l ih =>
    intro t hinv hnd habs
    obtain ⟨key, value⟩ := kv
    obtain ⟨t1, r, heq, hinv1, hcap1, hr, hlen1, hget1⟩ :=
      insert_model hash t key value hinv
    have hrnone : r = none := by
      rw [hr]
      exact habs (key, value) (List.mem_cons_self _ _)
    have hlk : ∀ q, lookupEntries (entries t1) q =
        if q = key then some value else lookupEntries (entries t) q := by
      intro q
      have h1 := hget1 q
      rw [get_eq_lookup hash t1 q hcap1 hinv1.2.2] at h1
      exact Option.some.inj h1
    simp only [List.map_cons, List.nodup_cons] at hnd
    obtain ⟨hkeynotin, hndl⟩ := hnd
    have habs1 : ∀ kv ∈ l, lookupEntries (entries t1) kv.1 = none := by
      intro kv hkv
      rw [hlk kv.1, if_neg (show ¬(kv.1 = key) from fun hh =>
        hkeynotin (hh ▸ List.mem_map_of_mem Prod.fst hkv))]
      exact habs kv (List.mem_cons_of_mem _ hkv)
    obtain ⟨t', hall, hinv', hlen', hcapor, hlook, hpres⟩ :=
      ih t1 hinv1 hndl habs1
    have hcap' : 0 < t'.buckets.length := by
      rcases hcapor with ⟨_, rfl⟩ | hpos
      · exact hcap1
      · exact hpos
    refine ⟨t', ?_, hinv', ?_, Or.inr hcap', ?_, ?_⟩
    · show insertAll hash t ((key, value) :: l) = some t'
      unfold insertAll
      rw [heq]
      exact hall
    · rw [hlen', hlen1, hrnone]
      simp only [Option.isSome_none, Bool.false_eq_true, ite_false,
        List.length_cons]
      omega
    · intro kv hkv
      rcases List.mem_cons.mp hkv with hkv0 | hkvl
      · have hk1 : kv.1 = key := by rw [hkv0]
        have hk2 : kv.2 = value := by rw [hkv0]
        rw [hk1, hk2,
          hpres key (fun kv2 hkv2 (hfst : kv2.1 = key) =>
            hkeynotin (hfst ▸ List.mem_map_of_mem Prod.fst hkv2)),
          hlk key, if_pos rfl]
      · exact hlook kv hkvl
    · intro q hq
      rw [hpres q (fun kv2 hkv2 =>
        hq kv2 (List.mem_cons_of_mem _ hkv2)), hlk q,
        if_neg (show ¬(q = key) from fun hh =>
          hq (key, value) (List.mem_cons_self _ _) hh.symm)]

end Chained

/-! ### Reduction lemmas for the separate-chaining HashMap and the
equivalence of the two implementations -/

namespace HashMap

variable {K V : Type} [DecidableEq K]

theorem insertAfterResize_zero_hm (hash : K → Nat) (t1 : HashMap K V)
    (key : K) (value : V) (hcap : t1.buckets.length = 0) :
    insertAfterResize hash t1 key value = none := by
  simp only [insertAfterResize, bucketIndex, hcap, ite_true]

theorem insertAfterResize_found_hm (hash : K → Nat) (t1 : HashMap K V)
    (key : K) (value : V) {newData : List (K × V)} {oldValue : V}
    (hcap : t1.buckets.length ≠ 0)
    (hfr : findReplace key value
      ((t1.buckets.getD (hash key % t1.buckets.length) ⟨[]⟩).data) =
        some (newData, oldValue)) :
    insertAfterResize hash t1 key value =
      some ({ buckets := t1.buckets.set (hash key % t1.buckets.length)
                ⟨newData⟩,
              len := t1.len }, some oldValue) := by
  simp only [insertAfterResize, bucketIndex, hcap, ite_false, hfr]

theorem insertAfterResize_notfound_hm (hash : K → Nat) (t1 : HashMap K V)
    (key : K) (value : V) (hcap : t1.buckets.length ≠ 0)
    (hfr : findReplace key value
      ((t1.buckets.getD (hash key % t1.buckets.length) ⟨[]⟩).data) =
        none) :
    insertAfterResize hash t1 key value =
      some ({ buckets := pushAt t1.buckets (hash key % t1.buckets.length)
                (key, value),
              len := t1.len + 1 }, none) := by
  simp only [insertAfterResize, bucketIndex, hcap, ite_false, hfr]

theorem remove_zero_hm (hash : K → Nat) (t : HashMap K V) (key : K)
    (hcap : t.buckets.length = 0) : remove hash t key = none := by
  simp only [remove, bucketIndex, hcap, ite_true]

theorem remove_notfound_hm (hash : K → Nat) (t : HashMap K V) (key : K)
    (hcap : t.buckets.length ≠ 0)
    (hpos : findPos (fun p => decide (p.1 = key))
      ((t.buckets.getD (hash key % t.buckets.length) ⟨[]⟩).data) = none) :
    remove hash t key = some (t, none) := by
  simp only [remove, bucketIndex, hcap, ite_false, hpos]

theorem remove_found_hm (hash : K → Nat) (t : HashMap K V) (key : K)
    {j : Nat} {R : List (K × V)} {x : K × V}
    (hcap : t.buckets.length ≠ 0)
    (hpos : findPos (fun p => decide (p.1 = key))
      ((t.buckets.getD (hash key % t.buckets.length) ⟨[]⟩).data) = some j)
    (hsw : swapRemove
      ((t.buckets.getD (hash key % t.buckets.length) ⟨[]⟩).data) j =
        some (R, x)) :
    remove hash t key =
      some ({ buckets := t.buckets.set (hash key % t.buckets.length) ⟨R⟩,
              len := t.len - 1 }, some x.2) := by
  simp only [remove, bucketIndex, hcap, ite_false, hpos, hsw]

theorem remove_swfail_hm (hash : K → Nat) (t : HashMap K V) (key : K)
    {j : Nat} (hcap : t.buckets.length ≠ 0)
    (hpos : findPos (fun p => decide (p.1 = key))
      ((t.buckets.getD (hash key % t.buckets.length) ⟨[]⟩).data) = some j)
    (hsw : swapRemove
      ((t.buckets.getD (hash key % t.buckets.length) ⟨[]⟩).data) j =
        none) :
    remove hash t key = none := by
  simp only [remove, bucketIndex, hcap, ite_false, hpos, hsw]

theorem get_zero_hm (hash : K → Nat) (t : HashMap K V) (key : K)
    (hcap : t.buckets.length = 0) : get hash t key = none := by
  simp only [get, bucketIndex, hcap, ite_true]

theorem get_pos_hm (hash : K → Nat) (t : HashMap K V) (key : K)
    (hcap : t.buckets.length ≠ 0) :
    get hash t key = some
      (((t.buckets.getD (hash key % t.buckets.length) ⟨[]⟩).data.find?
        fun p => decide (p.1 = key)).map Prod.snd) := by
  simp only [get, bucketIndex, hcap, ite_false]

end HashMap

namespace Chained

variable {K V : Type} [DecidableEq K]

theorem remove_swfail (hash : K → Nat) (t : Chained K V) (key : K)
    {j : Nat} (hcap : t.buckets.length ≠ 0)
    (hpos : findPos (fun p => decide (p.1 = key))
      ((t.buckets.getD (hash key % t.buckets.length) ⟨[]⟩).data) = some j)
    (hsw : swapRemove
      ((t.buckets.getD (hash key % t.buckets.length) ⟨[]⟩).data) j =
        none) :
    remove hash t key = none := by
  simp only [remove, bucketIndex, hcap, ite_false, hpos, hsw]

end Chained

section Equivalence

variable {K V : Type} [DecidableEq K]

theorem resize_equiv (hash : K → Nat) (t : Chained K V) :
    HashMap.resize hash (toHashMap t) =
      toHashMap (Chained.resize hash t) := rfl

theorem insertAfterResize_equiv (hash : K → Nat) (t1 : Chained K V)
    (k : K) (v : V) :
    HashMap.insertAfterResize hash (toHashMap t1) k v =
      (Chained.insertAfterResize hash t1 k v).map
        fun p => (toHashMap p.1, p.2) := by
  by_cases hcap : t1.buckets.length = 0
  · rw [Chained.insertAfterResize_zero hash t1 k v hcap,
      HashMap.insertAfterResize_zero_hm hash (toHashMap t1) k v hcap]
    rfl
  · cases hfr : findReplace k v
        ((t1.buckets.getD (hash k % t1.buckets.length) ⟨[]⟩).data) with
    | some p =>
      obtain ⟨nd, ov⟩ := p
      rw [Chained.insertAfterResize_found hash t1 k v hcap hfr,
        HashMap.insertAfterResize_found_hm hash (toHashMap t1) k v hcap hfr]
      rfl
    | none =>
      rw [Chained.insertAfterResize_notfound hash t1 k v hcap hfr,
        HashMap.insertAfterResize_notfound_hm hash (toHashMap t1) k v hcap
          hfr]
      rfl

theorem insert_equiv (hash : K → Nat) (t : Chained K V) (k : K) (v : V) :
    HashMap.insert hash (toHashMap t) k v =
      (Chained.insert hash t k v).map fun p => (toHashMap p.1, p.2) := by
  unfold HashMap.insert Chained.insert
  show HashMap.insertAfterResize hash
      (if t.len = 0 ∨ 3 * t.buckets.length ≤ 4 * t.len then
        HashMap.resize hash (toHashMap t) else toHashMap t) k v =
    (Chained.insertAfterResize hash
      (if t.len = 0 ∨ 3 * t.buckets.length ≤ 4 * t.len then
        Chained.resize hash t else t) k v).map fun p => (toHashMap p.1, p.2)
  by_cases hcond : t.len = 0 ∨ 3 * t.buckets.length ≤ 4 * t.len
  · rw [if_pos hcond, if_pos hcond, resize_equiv hash t]
    exact insertAfterResize_equiv hash (Chained.resize hash t) k v
  · rw [if_neg hcond, if_neg hcond]
    exact insertAfterResize_equiv hash t k v

theorem remove_equiv (hash : K → Nat) (t : Chained K V) (k : K) :
    HashMap.remove hash (toHashMap t) k =
      (Chained.remove hash t k).map fun p => (toHashMap p.1, p.2) := by
  by_cases hcap : t.buckets.length = 0
  · rw [Chained.remove_zero hash t k hcap,
      HashMap.remove_zero_hm hash (toHashMap t) k hcap]
    rfl
  · cases hpos : findPos (fun p => decide (p.1 = k))
        ((t.buckets.getD (hash k % t.buckets.length) ⟨[]⟩).data) with
    | none =>
      rw [Chained.remove_notfound hash t k hcap hpos,
        HashMap.remove_notfound_hm hash (toHashMap t) k hcap hpos]
      rfl
    | some j =>
      cases hsw : swapRemove
          ((t.buckets.getD (hash k % t.buckets.length) ⟨[]⟩).data) j with
      | none =>
        rw [Chained.remove_swfail hash t k hcap hpos hsw,
          HashMap.remove_swfail_hm hash (toHashMap t) k hcap hpos hsw]
        rfl
      | some p =>
        obtain ⟨R, x⟩ := p
        rw [Chained.remove_found hash t k hcap hpos hsw,
          HashMap.remove_found_hm hash (toHashMap t) k hcap hpos hsw]
        rfl

theorem get_equiv (hash : K → Nat) (t : Chained K V) (k : K) :
    HashMap.get hash (toHashMap t) k = Chained.get hash t k := by
  by_cases hcap : t.buckets.length = 0
  · rw [Chained.get_zero hash t k hcap,
      HashMap.get_zero_hm hash (toHashMap t) k hcap]
  · rw [Chained.get_pos hash t k hcap,
      HashMap.get_pos_hm hash (toHashMap t) k hcap]
    rfl

theorem containsKey_equiv (hash : K → Nat) (t : Chained K V) (k : K) :
    HashMap.containsKey hash (toHashMap t) k =
      Chained.containsKey hash t k := by
  unfold HashMap.containsKey Chained.containsKey
  rw [get_equiv]

theorem step_equiv (hash : K → Nat) (t : Chained K V) (op : Op K V) :
    HashMap.step hash (toHashMap t) op =
      (Chained.step hash t op).map fun p => (toHashMap p.1, p.2) := by
  cases op with
  | insertOp k v =>
    show (HashMap.insert hash (toHashMap t) k v).map
        (fun p => (p.1, OutVal.ov p.2)) =
      ((Chained.insert hash t k v).map
        (fun p => (p.1, OutVal.ov p.2))).map
        fun p => (toHashMap p.1, p.2)
    rw [insert_equiv hash t k v]
    cases Chained.insert hash t k v <;> rfl
  | removeOp k =>
    show (HashMap.remove hash (toHashMap t) k).map
        (fun p => (p.1, OutVal.ov p.2)) =
      ((Chained.remove hash t k).map
        (fun p => (p.1, OutVal.ov p.2))).map
        fun p => (toHashMap p.1, p.2)
    rw [remove_equiv hash t k]
    cases Chained.remove hash t k <;> rfl
  | getOp k =>
    show (HashMap.get hash (toHashMap t) k).map
        (fun o => (toHashMap t, OutVal.ov o)) =
      ((Chained.get hash t k).map
        (fun o => (t, OutVal.ov o))).map
        fun p => (toHashMap p.1, p.2)
    rw [get_equiv hash t k]
    cases Chained.get hash t k <;> rfl
  | containsOp k =>
    show (HashMap.containsKey hash (toHashMap t) k).map
        (fun b => (toHashMap t, OutVal.bool b)) =
      ((Chained.containsKey hash t k).map
        (fun b => (t, OutVal.bool b))).map
        fun p => (toHashMap p.1, p.2)
    rw [containsKey_equiv hash t k]
    cases Chained.containsKey hash t k <;> rfl
  | lenOp => rfl
  | isEmptyOp => rfl

end Equivalence

/-! ### Claim theorems -/

/-- C1: the claim says that on a table with zero buckets, `get`,
`contains` and `remove` report the key as absent without indexing and
without a modulo-by-zero.  The code does the opposite: all three compute
`hash % n_buckets` with `n_buckets = 0` before any check, which panics in
Rust (remainder by zero).  This theorem evaluates the embedded code on
every zero-bucket table and key: each operation reaches the panic
(modelled as `none`) instead of returning `None` / `false`. -/
theorem C1_zero_capacity_operations_panic {K V : Type} [DecidableEq K]
    (hash : K → Nat) (t : Chained K V) (h : t.buckets.length = 0)
    (k : K) :
    Chained.get hash t k = none ∧
    Chained.containsKey hash t k = none ∧
    Chained.remove hash t k = none :=
  ⟨Chained.get_zero hash t k h, Chained.containsKey_zero hash t k h,
    Chained.remove_zero hash t k h⟩

/-- Witness for C1 at the concrete failing input: a freshly constructed
table and key 0. -/
theorem C1_zero_capacity_operations_panic_witness :
    ((Chained.new : Chained Nat Nat)).buckets.length = 0 ∧
    (Chained.get (fun n => n) ((Chained.new : Chained Nat Nat)) 0 =
        none ∧
      Chained.containsKey (fun n => n)
        ((Chained.new : Chained Nat Nat)) 0 = none ∧
      Chained.remove (fun n => n) ((Chained.new : Chained Nat Nat)) 0 =
        none) :=
  ⟨rfl, C1_zero_capacity_operations_panic (fun n => n) Chained.new rfl 0⟩

/-- C2 counterexample: the claim states that `len ≤ capacity * 0.75`
(equivalently `4 * len ≤ 3 * capacity`) holds after every insert
completes.  After the very first insert into a fresh table the state has
`len = 1` and `capacity = 1`, and `4 * 1 ≤ 3 * 1` is false. -/
theorem C2_counterexample_first_insert :
    Chained.insert (fun n => n) ((Chained.new : Chained Nat Nat)) 0 10 =
      some (⟨[⟨[(0, 10)]⟩], 1⟩, none) ∧
    ¬(4 * (⟨[⟨[(0, 10)]⟩], 1⟩ : Chained Nat Nat).len ≤
        3 * (⟨[⟨[(0, 10)]⟩], 1⟩ : Chained Nat Nat).buckets.length) :=
  ⟨by decide, by decide⟩

/-- C2 amended: `len ≥ capacity * 0.75` is the trigger checked before
each insert, not a postcondition.  What does hold for every table state:
immediately after a resize `4 * len ≤ 3 * capacity`, and after any insert
completes the ratio is exceeded by less than one entry:
`4 * len ≤ 3 * capacity + 4` (that is, `len ≤ 0.75 * capacity + 1`). -/
theorem C2_load_factor_amended {K V : Type} [DecidableEq K]
    (hash : K → Nat) (t : Chained K V) (key : K) (value : V)
    (t' : Chained K V) (r : Option V)
    (h : Chained.insert hash t key value = some (t', r)) :
    4 * t'.len ≤ 3 * t'.buckets.length + 4 ∧
    4 * (Chained.resize hash t).len ≤
      3 * (Chained.resize hash t).buckets.length := by
  refine ⟨?_, Chained.resize_load hash t⟩
  unfold Chained.insert at h
  by_cases hcond : t.len = 0 ∨ 3 * t.buckets.length ≤ 4 * t.len
  · rw [if_pos hcond] at h
    obtain ⟨hcap', hlen'⟩ :=
      Chained.insertAfterResize_shape hash _ key value t' r h
    have hrlen : (Chained.resize hash t).len = t.len :=
      Chained.resize_len hash t
    have hrcap := Chained.resize_buckets_length hash t
    by_cases h0 : t.len = 0
    · rw [if_pos h0] at hrcap
      omega
    · rw [if_neg h0] at hrcap
      omega
  · rw [if_neg hcond] at h
    push_neg at hcond
    obtain ⟨hcap', hlen'⟩ :=
      Chained.insertAfterResize_shape hash _ key value t' r h
    omega

/-- Witness for C2 amended at a concrete insert. -/
theorem C2_load_factor_amended_witness :
    Chained.insert (fun n => n) ((Chained.new : Chained Nat Nat)) 1 11 =
      some (⟨[⟨[(1, 11)]⟩], 1⟩, none) ∧
    (4 * (⟨[⟨[(1, 11)]⟩], 1⟩ : Chained Nat Nat).len ≤
        3 * (⟨[⟨[(1, 11)]⟩], 1⟩ : Chained Nat Nat).buckets.length + 4 ∧
      4 * (Chained.resize (fun n => n)
          ((Chained.new : Chained Nat Nat))).len ≤
        3 * (Chained.resize (fun n => n)
          ((Chained.new : Chained Nat Nat))).buckets.length) :=
  ⟨by decide, C2_load_factor_amended (fun n => n) Chained.new 1 11 _ none
    (by decide)⟩

/-- C3: for every table state, key `k` and value `v`, `insert(k, v)`
completes without panicking and an immediate `get(k)` returns the value
`v` just inserted. -/
theorem C3_insert_then_get {K V : Type} [DecidableEq K] (hash : K → Nat)
    (t : Chained K V) (k : K) (v : V) :
    ∃ t' r, Chained.insert hash t k v = some (t', r) ∧
      Chained.get hash t' k = some (some v) := by
  unfold Chained.insert
  apply Chained.insertAfterResize_get
  by_cases hcond : t.len = 0 ∨ 3 * t.buckets.length ≤ 4 * t.len
  · rw [if_pos hcond]
    have := Chained.resize_buckets_length_pos hash t
    omega
  · rw [if_neg hcond]
    push_neg at hcond
    omega

/-- C4: resize leaves `len` unchanged, and after inserting any list of
distinct-key entries into a fresh table (forcing any number of resizes),
`len` equals the number of entries and every inserted key is retrievable
with its original value — no entry is dropped or duplicated. -/
theorem C4_no_loss_across_resizes {K V : Type} [DecidableEq K]
    (hash : K → Nat) (l : List (K × V))
    (hnd : (l.map Prod.fst).Nodup) :
    (∀ t : Chained K V, (Chained.resize hash t).len = t.len) ∧
    ∃ t', Chained.insertAll hash Chained.new l = some t' ∧
      t'.len = l.length ∧
      ∀ kv ∈ l, Chained.get hash t' kv.1 = some (some kv.2) := by
  refine ⟨fun t => Chained.resize_len hash t, ?_⟩
  obtain ⟨t', hall, hinv', hlen', hcapor, hlook, _⟩ :=
    Chained.insertAll_model hash l Chained.new (Chained.Inv_new hash) hnd
      (fun kv _ => rfl)
  refine ⟨t', hall, by simpa [Chained.new] using hlen', ?_⟩
  intro kv hkv
  have hcap' : 0 < t'.buckets.length := by
    rcases hcapor with ⟨hnil, _⟩ | hpos
    · rw [hnil] at hkv
      simp at hkv
    · exact hpos
  rw [Chained.get_eq_lookup hash t' kv.1 hcap' hinv'.2.2, hlook kv hkv]

/-- Witness for C4 with five distinct keys (driving the table through
several resizes). -/
theorem C4_no_loss_across_resizes_witness :
    ((([(0, 10), (1, 11), (2, 12), (3, 13), (4, 14)] :
        List (Nat × Nat)).map Prod.fst).Nodup) ∧
    ((∀ t : Chained Nat Nat,
        (Chained.resize (fun n => n) t).len = t.len) ∧
      ∃ t', Chained.insertAll (fun n => n) Chained.new
          ([(0, 10), (1, 11), (2, 12), (3, 13), (4, 14)] :
            List (Nat × Nat)) = some t' ∧
        t'.len = ([(0, 10), (1, 11), (2, 12), (3, 13), (4, 14)] :
          List (Nat × Nat)).length ∧
        ∀ kv ∈ ([(0, 10), (1, 11), (2, 12), (3, 13), (4, 14)] :
          List (Nat × Nat)),
          Chained.get (fun n => n) t' kv.1 = some (some kv.2)) :=
  ⟨by decide, C4_no_loss_across_resizes (fun n => n) _ (by decide)⟩

/-- C5: starting from any table satisfying the structural invariants,
inserting `(k, v1)` and then `(k, v2)` makes the second call return
`Some v1`, leaves `len` unchanged, and a subsequent `get k` returns the
newest value `v2`. -/
theorem C5_insert_overwrite {K V : Type} [DecidableEq K] (hash : K → Nat)
    (t : Chained K V) (k : K) (v1 v2 : V)
    (hinv : Chained.Inv hash t)
    (t1 t2 : Chained K V) (r1 r2 : Option V)
    (h1 : Chained.insert hash t k v1 = some (t1, r1))
    (h2 : Chained.insert hash t1 k v2 = some (t2, r2)) :
    r2 = some v1 ∧ t2.len = t1.len ∧
      Chained.get hash t2 k = some (some v2) := by
  obtain ⟨t1', r1', heq1, hinv1, hcap1, hr1, hlen1, hget1⟩ :=
    Chained.insert_model hash t k v1 hinv
  rw [heq1] at h1
  obtain ⟨ht1, hrr1⟩ := Prod.ext_iff.mp (Option.some.inj h1)
  dsimp only at ht1 hrr1
  rw [← ht1] at h2 ⊢
  have hlk1 : Chained.lookupEntries (Chained.entries t1') k = some v1 := by
    have hg := hget1 k
    rw [Chained.get_eq_lookup hash t1' k hcap1 hinv1.2.2] at hg
    have hg2 := Option.some.inj hg
    rw [hg2, if_pos rfl]
  obtain ⟨t2', r2', heq2, hinv2, hcap2, hr2, hlen2, hget2⟩ :=
    Chained.insert_model hash t1' k v2 hinv1
  rw [heq2] at h2
  obtain ⟨ht2, hrr2⟩ := Prod.ext_iff.mp (Option.some.inj h2)
  dsimp only at ht2 hrr2
  rw [← ht2, ← hrr2]
  refine ⟨?_, ?_, ?_⟩
  · rw [hr2, hlk1]
  · rw [hlen2, hr2, hlk1]
    simp
  · rw [hget2 k, if_pos rfl]

/-- Witness for C5: insert key 0 twice into a fresh table. -/
theorem C5_insert_overwrite_witness :
    Chained.Inv (fun n => n) ((Chained.new : Chained Nat Nat)) ∧
    Chained.insert (fun n => n) ((Chained.new : Chained Nat Nat)) 0 10 =
      some (⟨[⟨[(0, 10)]⟩], 1⟩, none) ∧
    Chained.insert (fun n => n) (⟨[⟨[(0, 10)]⟩], 1⟩ : Chained Nat Nat) 0
      20 = some (⟨[⟨[(0, 20)]⟩, ⟨[]⟩], 1⟩, some 10) ∧
    (some 10 = some 10 ∧
      (⟨[⟨[(0, 20)]⟩, ⟨[]⟩], 1⟩ : Chained Nat Nat).len =
        (⟨[⟨[(0, 10)]⟩], 1⟩ : Chained Nat Nat).len ∧
      Chained.get (fun n => n)
        (⟨[⟨[(0, 20)]⟩, ⟨[]⟩], 1⟩ : Chained Nat Nat) 0 =
          some (some 20)) :=
  ⟨by decide, by decide, by decide,
    C5_insert_overwrite (fun n => n) Chained.new 0 10 20 (by decide)
      ⟨[⟨[(0, 10)]⟩], 1⟩ ⟨[⟨[(0, 20)]⟩, ⟨[]⟩], 1⟩ none (some 10)
      (by decide) (by decide)⟩

/-- C6 counterexample: the claim says removing an absent key returns
`None` and leaves the table unchanged.  On the fresh table (zero
buckets, key 0 absent) `remove` instead evaluates `hash % 0` and panics
(`none` in the embedding), so it does not return "`None`, no
mutation". -/
theorem C6_counterexample_remove_on_empty :
    Chained.remove (fun n => n) ((Chained.new : Chained Nat Nat)) 0 ≠
      some (Chained.new, none) := by decide

/-- C6 amended: for every table with at least one bucket satisfying the
structural invariants (a zero-bucket table panics instead — see C1),
`remove k` returns `Some v` iff `k` is stored with value `v`; in that
case `len` decreases by exactly 1; afterwards `get k` returns `None`;
and when the key is absent the table is returned entirely unchanged. -/
theorem C6_remove_semantics_amended {K V : Type} [DecidableEq K]
    (hash : K → Nat) (t : Chained K V) (k : K)
    (hcap : 0 < t.buckets.length) (hinv : Chained.Inv hash t) :
    ∃ t' r, Chained.remove hash t k = some (t', r) ∧
      (∀ v, r = some v ↔
        Chained.lookupEntries (Chained.entries t) k = some v) ∧
      (r.isSome → t'.len + 1 = t.len) ∧
      Chained.get hash t' k = some none ∧
      (r = none → t' = t) := by
  obtain ⟨t', r, heq, hinv', hcapeq, hr, hrnone, hlen, hpos, hget⟩ :=
    Chained.remove_model hash t k hcap hinv
  refine ⟨t', r, heq, ?_, ?_, ?_, hrnone⟩
  · intro v
    rw [hr]
  · intro hs
    rw [hlen, if_pos hs]
    have := hpos hs
    omega
  · rw [hget k, if_pos rfl]

/-- Witness for C6 amended: a one-bucket table holding `(5, 7)`. -/
theorem C6_remove_semantics_amended_witness :
    0 < (⟨[⟨[(5, 7)]⟩], 1⟩ : Chained Nat Nat).buckets.length ∧
    Chained.Inv (fun n => n) (⟨[⟨[(5, 7)]⟩], 1⟩ : Chained Nat Nat) ∧
    ∃ t' r, Chained.remove (fun n => n)
        (⟨[⟨[(5, 7)]⟩], 1⟩ : Chained Nat Nat) 5 = some (t', r) ∧
      (∀ v, r = some v ↔
        Chained.lookupEntries
          (Chained.entries (⟨[⟨[(5, 7)]⟩], 1⟩ : Chained Nat Nat)) 5 =
            some v) ∧
      (r.isSome → t'.len + 1 =
        (⟨[⟨[(5, 7)]⟩], 1⟩ : Chained Nat Nat).len) ∧
      Chained.get (fun n => n) t' 5 = some none ∧
      (r = none → t' = ⟨[⟨[(5, 7)]⟩], 1⟩) :=
  ⟨by decide, by decide,
    C6_remove_semantics_amended (fun n => n) _ 5 (by decide) (by decide)⟩

/-- C7: `resize` targets capacity 1 when `len = 0` and `len * 2`
otherwise, and consequently the first insert into a fresh table resizes
to exactly one bucket (returning `None`, as the table was empty). -/
theorem C7_resize_target_and_first_insert {K V : Type} [DecidableEq K]
    (hash : K → Nat) :
    (∀ t : Chained K V, (Chained.resize hash t).buckets.length =
      if t.len = 0 then 1 else t.len * 2) ∧
    ∀ k : K, ∀ v : V, ∃ t',
      Chained.insert hash Chained.new k v = some (t', none) ∧
      t'.buckets.length = 1 := by
  refine ⟨fun t => Chained.resize_buckets_length hash t, ?_⟩
  intro k v
  obtain ⟨t', r, heq, _, _, hr, _, _⟩ :=
    Chained.insert_model hash Chained.new k v (Chained.Inv_new hash)
  have hrnone : r = none := by
    rw [hr]
    rfl
  rw [hrnone] at heq
  exact ⟨t', heq,
    Chained.insert_cap_of_len_zero hash Chained.new k v t' none rfl heq⟩

/-- C8: `resize`, `insert` and `remove` all preserve the structural
invariants (`len` equals the total entry count, keys are globally unique
and each entry sits in the bucket `bucket_index(key, capacity)`); `get`
and `contains` take the table immutably in the embedding and so cannot
disturb it. -/
theorem C8_invariant_preservation {K V : Type} [DecidableEq K]
    (hash : K → Nat) (t : Chained K V) (hinv : Chained.Inv hash t) :
    Chained.Inv hash (Chained.resize hash t) ∧
    (∀ k v t' r, Chained.insert hash t k v = some (t', r) →
      Chained.Inv hash t') ∧
    (∀ k t' r, Chained.remove hash t k = some (t', r) →
      Chained.Inv hash t') := by
  refine ⟨Chained.resize_inv hash t hinv, ?_, ?_⟩
  · intro k v t' r h
    obtain ⟨t'', r'', heq, hinv', _, _, _, _⟩ :=
      Chained.insert_model hash t k v hinv
    rw [heq] at h
    obtain ⟨h1, _⟩ := Prod.ext_iff.mp (Option.some.inj h)
    dsimp only at h1
    exact h1 ▸ hinv'
  · intro k t' r h
    by_cases hcap : t.buckets.length = 0
    · rw [Chained.remove_zero hash t k hcap] at h
      exact absurd h (by simp)
    · obtain ⟨t'', r'', heq, hinv', _, _, _, _, _, _⟩ :=
        Chained.remove_model hash t k (by omega) hinv
      rw [heq] at h
      obtain ⟨h1, _⟩ := Prod.ext_iff.mp (Option.some.inj h)
      dsimp only at h1
      exact h1 ▸ hinv'

/-- Witness for C8: a one-bucket table holding `(2, 9)`. -/
theorem C8_invariant_preservation_witness :
    Chained.Inv (fun n => n) (⟨[⟨[(2, 9)]⟩], 1⟩ : Chained Nat Nat) ∧
    (Chained.Inv (fun n => n)
        (Chained.resize (fun n => n)
          (⟨[⟨[(2, 9)]⟩], 1⟩ : Chained Nat Nat)) ∧
      (∀ k v t' r, Chained.insert (fun n => n)
          (⟨[⟨[(2, 9)]⟩], 1⟩ : Chained Nat Nat) k v = some (t', r) →
        Chained.Inv (fun n => n) t') ∧
      (∀ k t' r, Chained.remove (fun n => n)
          (⟨[⟨[(2, 9)]⟩], 1⟩ : Chained Nat Nat) k = some (t', r) →
        Chained.Inv (fun n => n) t')) :=
  ⟨by decide, C8_invariant_preservation (fun n => n) _ (by decide)⟩

/-- C9: the two implementations are behaviourally equivalent.  For every
sequence of `new`/`insert`/`get`/`contains_key`/`remove`/`len`/`is_empty`
calls (with the borrowed key equal to the owned key), running it on a
`HashMap` state corresponding field-for-field to a `Chained` state
produces the same sequence of return values, panics at the same point if
any, and ends in the corresponding state; `toHashMap Chained.new =
HashMap.new` holds definitionally, so this covers runs from fresh
tables. -/
theorem C9_two_implementations_equivalent {K V : Type} [DecidableEq K]
    (hash : K → Nat) (ops : List (Op K V)) (t : Chained K V) :
    HashMap.run hash (toHashMap t) ops =
      ((Chained.run hash t ops).1,
        (Chained.run hash t ops).2.map toHashMap) := by
  induction ops generalizing t with
  | nil => rfl
  | cons op ops ih =>
    unfold HashMap.run Chained.run
    rw [step_equiv hash t op]
    cases hstep : Chained.step hash t op with
    | none => rfl
    | some p =>
      obtain ⟨t', out⟩ := p
      dsimp only [Option.map_some']
      rw [ih t']

/-- C10: on any table whose `len` is 0 (for instance after every entry
has been removed, however large the bucket array has grown), the next
insert triggers a resize whose target is 1, so the table ends up with
exactly one bucket. -/
theorem C10_insert_at_len_zero_rebuilds_one_bucket {K V : Type}
    [DecidableEq K] (hash : K → Nat) (t : Chained K V) (k : K) (v : V)
    (h0 : t.len = 0) :
    ∃ t' r, Chained.insert hash t k v = some (t', r) ∧
      t'.buckets.length = 1 := by
  have hcap1 : (Chained.resize hash t).buckets.length ≠ 0 := by
    have := Chained.resize_buckets_length_pos hash t
    omega
  unfold Chained.insert
  rw [if_pos (Or.inl h0)]
  obtain ⟨t', r, heq, _⟩ :=
    Chained.insertAfterResize_get hash (Chained.resize hash t) k v hcap1
  refine ⟨t', r, heq, ?_⟩
  obtain ⟨hcap', _⟩ :=
    Chained.insertAfterResize_shape hash _ k v t' r heq
  rw [hcap', Chained.resize_buckets_length, if_pos h0]

/-- Witness for C10: a length-0 table that still owns four buckets. -/
theorem C10_insert_at_len_zero_rebuilds_one_bucket_witness :
    (⟨[⟨[]⟩, ⟨[]⟩, ⟨[]⟩, ⟨[]⟩], 0⟩ : Chained Nat Nat).len = 0 ∧
    ∃ t' r, Chained.insert (fun n => n)
        (⟨[⟨[]⟩, ⟨[]⟩, ⟨[]⟩, ⟨[]⟩], 0⟩ : Chained Nat Nat) 3 30 =
          some (t', r) ∧
      t'.buckets.length = 1 :=
  ⟨rfl, C10_insert_at_len_zero_rebuilds_one_bucket (fun n => n) _ 3 30
    rfl⟩

end Trashmap
